import Mathlib

set_option maxRecDepth 4000

/-!
Verification development for the pdfprospector extraction core.

The TypeScript sources embedded here are `backend/src/services/llmService.ts`
(`LLMService`: provider planning, prompt building, per-provider response
parsing and repair, report finalization) and
`backend/src/services/pdfProcessor.ts` (`PDFProcessor`: text cleaning, page
splitting, header/footer stripping).

Modelling conventions:
* JavaScript strings are modelled as `List Char` (`Str`), and the JS string
  methods used by the code (`trim`, `split`, `indexOf`, `lastIndexOf`,
  `substring`, `endsWith`, `match` counting) are given explicit definitions
  with JS clamping/sentinel semantics.
* `JSON.parse` is modelled by a total fuel-based recursive-descent parser
  returning `Option Json`; objects are de-duplicated on insertion
  (last value wins, first position kept), as JS object construction does.
* `uuidv4()` is modelled as a supply `gen : Nat → Str`, consumed in call
  order; `new Date().toISOString()` and elapsed time are explicit parameters.
* Remote provider calls are modelled by an oracle
  `Provider → Except Str Json` giving each attempt's outcome; the orchestrator
  logic (`extractData`) is embedded over that oracle.
* JS float literals `0.4` / `0.3` in page-boundary nudging are modelled as the
  exact rationals `2/5` / `3/10`; `Math.round` as `⌊q + 1/2⌋`.
-/

namespace PDFP

/-- JavaScript strings, modelled as lists of characters. -/
abbrev Str := List Char

/-- Coerce a Lean string literal into the `Str` model. -/
def strOf (s : String) : Str := s.data

/-- JS whitespace (ASCII subset): the characters stripped by `trim` and
matched by `\s`. -/
def isWsChar (c : Char) : Bool :=
  c == ' ' || c == '\t' || c == '\n' || c == '\r' || c == '\x0b' || c == '\x0c'

/-- JS `\d` character class. -/
def isDigitCh (c : Char) : Bool := '0' ≤ c && c ≤ '9'

/-- JS `\w` character class: `[A-Za-z0-9_]`. -/
def isWordChar (c : Char) : Bool :=
  ('a' ≤ c && c ≤ 'z') || ('A' ≤ c && c ≤ 'Z') || isDigitCh c || c == '_'

/-- ASCII lower-casing, for the case-insensitive (`/i`) regex matches. -/
def lowerCh (c : Char) : Char :=
  if 'A' ≤ c && c ≤ 'Z' then Char.ofNat (c.toNat + 32) else c

/-- JS `String.prototype.trim` (ASCII whitespace model). -/
def jsTrim (s : Str) : Str :=
  ((s.dropWhile isWsChar).reverse.dropWhile isWsChar).reverse

/-- JS `split('\n')`: always returns at least one segment; `""` splits to
`[""]`. -/
def splitNl : Str → List Str
  | [] => [[]]
  | c :: cs =>
    if c == '\n' then [] :: splitNl cs
    else
      match splitNl cs with
      | [] => [[c]]
      | l :: ls => (c :: l) :: ls

/-- JS `Array.prototype.join('\n')`. -/
def joinNl (ls : List Str) : Str := List.intercalate ['\n'] ls

/-- Number of occurrences of a character, as in `(s.match(/\{/g) || []).length`. -/
def countCh (s : Str) (c : Char) : Nat := s.count c

/-- Scan for the first occurrence of `needle` at positions `i, i+1, ...`,
where the first argument list is the original hay with `i` characters
dropped (structural, so it evaluates). -/
def idxScan (needle : Str) : Str → Nat → Int
  | [], i => if needle.isEmpty then (i : Int) else -1
  | l@(_ :: t), i => if needle.isPrefixOf l then (i : Int) else idxScan needle t (i + 1)

/-- JS `hay.indexOf(needle, pos)` (position clamped into `[0, length]`). -/
def jsIndexOf (hay needle : Str) (pos : Int) : Int :=
  idxScan needle (hay.drop (min pos.toNat hay.length)) (min pos.toNat hay.length)

/-- Largest index `≤ i` at which `needle` occurs, scanning downward. -/
def lastIdxAux (hay needle : Str) : Nat → Int
  | 0 => if needle.isPrefixOf hay then 0 else -1
  | i + 1 =>
    if needle.isPrefixOf (hay.drop (i + 1)) then (i + 1 : Nat)
    else lastIdxAux hay needle i

/-- JS `hay.lastIndexOf(needle, pos)` (position clamped into `[0, length]`). -/
def jsLastIndexOf (hay needle : Str) (pos : Int) : Int :=
  lastIdxAux hay needle (min pos.toNat hay.length)

/-- JS `s.substring(a, b)`: clamps both arguments into `[0, length]` and swaps
them when given in descending order. -/
def jsSubstring (s : Str) (a b : Int) : Str :=
  let a' := min a.toNat s.length
  let b' := min b.toNat s.length
  let lo := min a' b'
  let hi := max a' b'
  (s.drop lo).take (hi - lo)

/-- Substring occurrence test (`true` iff `needle` occurs contiguously in
`hay`); the model for "the string contains ...". -/
def occursIn (needle : Str) : Str → Bool
  | [] => needle.isEmpty
  | c :: t => needle.isPrefixOf (c :: t) || occursIn needle t

/-- Strip every whitespace character; two strings are "equal modulo whitespace
normalization" when their `stripWs` images coincide. -/
def stripWs (s : Str) : Str := s.filter (fun c => !isWsChar c)

/-! ## The JSON value model and `JSON.parse`

JSON values as produced by `JSON.parse`. Numbers are kept exactly as
`mantissa × 10^exponent` with trailing zeros of the mantissa normalized away,
so numerals JS considers equal (`1`, `1.0`, `10e-1`) receive one
representation. Objects are ordered association lists without duplicate keys
(the parser inserts members JS-style: a repeated key overwrites the earlier
value in place). -/

inductive Json where
  | null
  | bool (b : Bool)
  | num (mantissa : Int) (exponent : Int)
  | str (s : Str)
  | arr (elems : List Json)
  | obj (members : List (Str × Json))
deriving Repr

instance : Inhabited Json := ⟨Json.null⟩

mutual

def Json.beq : Json → Json → Bool
  | .null, .null => true
  | .bool a, .bool b => a == b
  | .num m1 e1, .num m2 e2 => m1 == m2 && e1 == e2
  | .str a, .str b => a == b
  | .arr xs, .arr ys => Json.beqList xs ys
  | .obj xs, .obj ys => Json.beqMembers xs ys
  | _, _ => false

def Json.beqList : List Json → List Json → Bool
  | [], [] => true
  | x :: xs, y :: ys => Json.beq x y && Json.beqList xs ys
  | _, _ => false

def Json.beqMembers : List (Str × Json) → List (Str × Json) → Bool
  | [], [] => true
  | (k1, v1) :: xs, (k2, v2) :: ys => k1 == k2 && Json.beq v1 v2 && Json.beqMembers xs ys
  | _, _ => false

end

instance : BEq Json := ⟨Json.beq⟩

mutual

theorem Json.beq_correct : ∀ a b : Json, Json.beq a b = true ↔ a = b
  | .null, b => by cases b <;> simp [Json.beq]
  | .bool x, b => by cases b <;> simp [Json.beq]
  | .num m e, b => by cases b <;> simp [Json.beq]
  | .str s, b => by cases b <;> simp [Json.beq]
  | .arr xs, b => by
      cases b <;> simp [Json.beq]
      exact Json.beqList_correct xs _
  | .obj xs, b => by
      cases b <;> simp [Json.beq]
      exact Json.beqMembers_correct xs _

theorem Json.beqList_correct : ∀ xs ys : List Json, Json.beqList xs ys = true ↔ xs = ys
  | [], ys => by cases ys <;> simp [Json.beqList]
  | x :: xs, ys => by
      cases ys with
      | nil => simp [Json.beqList]
      | cons y ys =>
        simp only [Json.beqList, Bool.and_eq_true, List.cons.injEq]
        rw [Json.beq_correct, Json.beqList_correct]

theorem Json.beqMembers_correct :
    ∀ xs ys : List (Str × Json), Json.beqMembers xs ys = true ↔ xs = ys
  | [], ys => by cases ys <;> simp [Json.beqMembers]
  | (k, v) :: xs, ys => by
      cases ys with
      | nil => simp [Json.beqMembers]
      | cons y ys =>
        obtain ⟨k2, v2⟩ := y
        simp only [Json.beqMembers, Bool.and_eq_true, List.cons.injEq, Prod.mk.injEq]
        rw [Json.beq_correct, Json.beqMembers_correct]
        constructor
        · rintro ⟨⟨h1, h2⟩, h3⟩
          exact ⟨⟨eq_of_beq h1, h2⟩, h3⟩
        · rintro ⟨⟨h1, h2⟩, h3⟩
          exact ⟨⟨by simp [h1], h2⟩, h3⟩

end

instance : DecidableEq Json := fun a b =>
  decidable_of_iff (Json.beq a b = true) (Json.beq_correct a b)

/-- Whitespace skipped by `JSON.parse` between tokens. -/
def skipJws : Str → Str
  | c :: cs => if c == ' ' || c == '\t' || c == '\n' || c == '\r' then skipJws cs else c :: cs
  | [] => []

def hexVal (c : Char) : Option Nat :=
  let n := c.toNat
  if 48 ≤ n && n ≤ 57 then some (n - 48)
  else if 97 ≤ n && n ≤ 102 then some (n - 87)
  else if 65 ≤ n && n ≤ 70 then some (n - 55)
  else none

/-- Parse the body of a JSON string literal (after the opening quote):
escapes are decoded, raw control characters are rejected. -/
def parseJStr (acc : Str) : Str → Option (Str × Str)
  | '"' :: rest => some (acc.reverse, rest)
  | '\\' :: 'u' :: a :: b :: c :: d :: rest =>
    match hexVal a, hexVal b, hexVal c, hexVal d with
    | some va, some vb, some vc, some vd =>
      parseJStr (Char.ofNat (((va * 16 + vb) * 16 + vc) * 16 + vd) :: acc) rest
    | _, _, _, _ => none
  | '\\' :: e :: rest =>
    (match e with
     | '"' => some '"'
     | '\\' => some '\\'
     | '/' => some '/'
     | 'b' => some (Char.ofNat 8)
     | 'f' => some (Char.ofNat 12)
     | 'n' => some '\n'
     | 'r' => some '\r'
     | 't' => some '\t'
     | _ => none).bind fun ch => parseJStr (ch :: acc) rest
  | c :: rest => if c.toNat < 32 then none else parseJStr (c :: acc) rest
  | [] => none

def digitsVal (ds : Str) : Int :=
  (ds.foldl (fun acc c => acc * 10 + (c.toNat - '0'.toNat)) 0 : Nat)

/-- Strip factors of ten from the mantissa into the exponent (fuel-bounded). -/
def stripTens : Nat → Int → Int → Int × Int
  | 0, m, e => (m, e)
  | fuel + 1, m, e => if m % 10 == 0 && m ≠ 0 then stripTens fuel (m / 10) (e + 1) else (m, e)

/-- Normalized numeric value: `0` is canonical, trailing zeros move into the
exponent. -/
def mkNum (m e : Int) : Json :=
  if m = 0 then Json.num 0 0
  else
    let (m2, e2) := stripTens m.natAbs m e
    Json.num m2 e2

/-- Parse a JSON number (strict RFC 8259 grammar: no leading zeros, a fraction
or exponent part must be non-empty when introduced). -/
def parseJNum (cs : Str) : Option (Json × Str) :=
  let (neg, cs1) := match cs with | '-' :: r => (true, r) | _ => (false, cs)
  let intDs := cs1.takeWhile isDigitCh
  let cs2 := cs1.dropWhile isDigitCh
  if intDs.isEmpty then none
  else if intDs.length > 1 && intDs.headD ' ' == '0' then none
  else
    let fracStep : Option (Str × Str) :=
      match cs2 with
      | '.' :: r =>
        let fds := r.takeWhile isDigitCh
        if fds.isEmpty then none else some (fds, r.dropWhile isDigitCh)
      | _ => some ([], cs2)
    match fracStep with
    | none => none
    | some (fracDs, cs3) =>
      let expStep : Option (Int × Str) :=
        match cs3 with
        | 'e' :: r | 'E' :: r =>
          let (sgn, r1) : Int × Str :=
            match r with
            | '+' :: r2 => (1, r2)
            | '-' :: r2 => (-1, r2)
            | _ => (1, r)
          let eds := r1.takeWhile isDigitCh
          if eds.isEmpty then none else some (sgn * digitsVal eds, r1.dropWhile isDigitCh)
        | _ => some (0, cs3)
      match expStep with
      | none => none
      | some (expv, cs4) =>
        let mant : Int := (if neg then -1 else 1) * digitsVal (intDs ++ fracDs)
        some (mkNum mant (expv - (fracDs.length : Int)), cs4)

/-- Insert an object member JS-style: a repeated key overwrites the earlier
value at its original position; a new key is appended. -/
def insertMember (ms : List (Str × Json)) (k : Str) (v : Json) : List (Str × Json) :=
  if ms.any (fun p => p.1 == k) then
    ms.map (fun p => if p.1 == k then (k, v) else p)
  else ms ++ [(k, v)]

mutual

/-- One JSON value (fuel-bounded recursive descent). -/
def parseVal : Nat → Str → Option (Json × Str)
  | 0, _ => none
  | fuel + 1, cs =>
    match skipJws cs with
    | 'n' :: 'u' :: 'l' :: 'l' :: r => some (.null, r)
    | 't' :: 'r' :: 'u' :: 'e' :: r => some (.bool true, r)
    | 'f' :: 'a' :: 'l' :: 's' :: 'e' :: r => some (.bool false, r)
    | '"' :: r => (parseJStr [] r).map fun (s, r2) => (.str s, r2)
    | '[' :: r =>
      (match skipJws r with
       | ']' :: r2 => some (.arr [], r2)
       | r2 => (parseItems fuel r2).map fun (es, r3) => (.arr es, r3))
    | '{' :: r =>
      (match skipJws r with
       | '}' :: r2 => some (.obj [], r2)
       | r2 => (parseFields fuel [] r2).map fun (ms, r3) => (.obj ms, r3))
    | c :: rest =>
      if c == '-' || isDigitCh c then parseJNum (c :: rest) else none
    | [] => none

/-- One-or-more comma-separated array elements up to the closing bracket. -/
def parseItems : Nat → Str → Option (List Json × Str)
  | 0, _ => none
  | fuel + 1, cs =>
    (parseVal fuel cs).bind fun (v, r) =>
      match skipJws r with
      | ',' :: r2 => (parseItems fuel r2).map fun (vs, r3) => (v :: vs, r3)
      | ']' :: r2 => some ([v], r2)
      | _ => none

/-- One-or-more object members up to the closing brace, accumulated with
JS-style duplicate-key overwriting. -/
def parseFields : Nat → List (Str × Json) → Str → Option (List (Str × Json) × Str)
  | 0, _, _ => none
  | fuel + 1, acc, cs =>
    match skipJws cs with
    | '"' :: r =>
      (parseJStr [] r).bind fun (k, r1) =>
        match skipJws r1 with
        | ':' :: r2 =>
          (parseVal fuel r2).bind fun (v, r3) =>
            match skipJws r3 with
            | ',' :: r4 => parseFields fuel (insertMember acc k v) r4
            | '}' :: r4 => some (insertMember acc k v, r4)
            | _ => none
        | _ => none
    | _ => none

end

/-- The model of `JSON.parse`: `some` on exactly the accepted documents
(trailing whitespace allowed, trailing garbage rejected). -/
def parseJson (s : Str) : Option Json :=
  match parseVal (2 * s.length + 2) s with
  | some (j, rest) => if (skipJws rest).isEmpty then some j else none
  | none => none

/-! ## LLM service: provider planning, prompt, gateway parsing, finalization -/

inductive Provider where
  | openai
  | anthropic
deriving DecidableEq, Repr

/-- Provider name as interpolated into accumulated error strings. -/
def providerName : Provider → Str
  | .openai => strOf "openai"
  | .anthropic => strOf "anthropic"

/-- Process-wide configuration fixed at service construction: which API keys
are present, and the (possibly env-overridden) model identifiers. -/
structure LLMConfig where
  haveOpenAI : Bool
  haveAnthropic : Bool
  openaiModel : Str
  anthropicModel : Str

/-- `ExtractionOptions` (`temperature`/`maxTokens` only shape the remote call,
which the oracle models; they are kept for the record's shape). -/
structure ExtractionOptions where
  model : Option Provider := none
  temperature : Option ℚ := none
  maxTokens : Option Nat := none
  allowFallback : Option Bool := none

/-- `LLMService.planProviders`. -/
def planProviders (cfg : LLMConfig) (preferred : Option Provider)
    (allowFallback : Bool) : List Provider :=
  if cfg.haveOpenAI && !cfg.haveAnthropic then [.openai]
  else if !cfg.haveOpenAI && cfg.haveAnthropic then [.anthropic]
  else
    let primary := preferred.getD .openai
    let secondary : Provider := if primary = .openai then .anthropic else .openai
    if allowFallback then [primary, secondary] else [primary]

/-- The "minimal valid structure" fallback: all six categories empty. -/
def emptySkeleton : Json :=
  Json.obj [(strOf "goals", Json.arr []), (strOf "bmps", Json.arr []),
            (strOf "implementation", Json.arr []), (strOf "monitoring", Json.arr []),
            (strOf "outreach", Json.arr []), (strOf "geographicAreas", Json.arr [])]

/-- The bracket/brace-count repair: append the deficit of `]` then the deficit
of `}` (for a non-positive deficit the JS `for` loop body never runs). -/
def fixJson (content : Str) : Str :=
  content
    ++ List.replicate ((countCh content '[' : Int) - (countCh content ']' : Int)).toNat ']'
    ++ List.replicate ((countCh content '{' : Int) - (countCh content '}' : Int)).toNat '}'

/-- `LLMService.extractWithOpenAI` from the raw response content on: parse;
on failure, when the trimmed content does not end in `}`, attempt the
count-based repair and reparse; otherwise, or when repair also fails, return
the empty skeleton. Total: a parse problem never escapes this function. -/
def extractWithOpenAI (content : Str) : Json :=
  match parseJson content with
  | some parsed => parsed
  | none =>
    if (jsTrim content).getLast? ≠ some '}' then
      match parseJson (fixJson content) with
      | some fixed => fixed
      | none => emptySkeleton
    else emptySkeleton

/-- The greedy `\x7b[\s\S]*\x7d` regex match: the span from the first `{` to
the last `}` strictly after it, `none` when no such region exists. -/
def jsonMatch (s : Str) : Option Str :=
  let i := jsIndexOf s ['{'] 0
  let j := jsLastIndexOf s ['}'] s.length
  if i ≠ -1 ∧ j ≠ -1 ∧ i < j then some (jsSubstring s i (j + 1)) else none

/-- `LLMService.extractWithAnthropic` from the response text piece on: locate
the brace-delimited region and `JSON.parse` it; both failure modes are hard
errors handed to the orchestrator (the JS engine's parse error message is
abstracted by a fixed string). -/
def extractWithAnthropic (text : Str) : Except Str Json :=
  match jsonMatch text with
  | none => .error (strOf "No valid JSON found in Anthropic response")
  | some region =>
    match parseJson region with
    | some j => .ok j
    | none => .error (strOf "SyntaxError: JSON parse failed")

/-- Property access `o.k` on a parsed JSON value: `some` for an object's
member, `none` (JS `undefined`) otherwise. (Access on `null` would throw in
JS; hypotheses exclude it where it matters.) -/
def jsField (j : Json) (k : Str) : Option Json :=
  match j with
  | .obj ms => (ms.find? (fun p => p.1 == k)).map Prod.snd
  | _ => none

/-- JS truthiness of a parsed JSON value. -/
def isTruthy : Json → Bool
  | .null => false
  | .bool b => b
  | .num m _ => !(m == 0)
  | .str s => !s.isEmpty
  | .arr _ => true
  | .obj _ => true

/-- Truthiness of a possibly-undefined value. -/
def truthyOpt : Option Json → Bool
  | none => false
  | some v => isTruthy v

/-- `extractedData.goals || []`: an array is taken as-is; a falsy or absent
value yields `[]`. (A truthy non-array would make the later `forEach` throw
in JS; hypotheses exclude it.) -/
def collOf (j : Json) (k : Str) : List Json :=
  match jsField j k with
  | some (.arr xs) => xs
  | _ => []

/-- Property assignment `r.id = v` on an object record: an existing key keeps
its position, a new key is appended. Non-objects pass through unchanged (JS
would throw in strict mode; hypotheses exclude them where it matters). -/
def setField (r : Json) (k : Str) (v : Json) : Json :=
  match r with
  | .obj ms => .obj (insertMember ms k v)
  | _ => r

/-- The `forEach` id-backfill over one collection: a record without a truthy
`id` receives the next fresh identifier from the supply; the returned counter
is the supply position after the collection. -/
def backfillIds (gen : Nat → Str) : Nat → List Json → List Json × Nat
  | k, [] => ([], k)
  | k, r :: rs =>
    if truthyOpt (jsField r (strOf "id")) then
      let (out, k2) := backfillIds gen k rs
      (r :: out, k2)
    else
      let (out, k2) := backfillIds gen (k + 1) rs
      (setField r (strOf "id") (.str (gen k)) :: out, k2)

structure ReportSummary where
  totalGoals : Nat
  totalBMPs : Nat
  completionRate : Int
  extractionAccuracy : Nat
  processingTime : Nat
deriving DecidableEq, Repr

structure ReportMetadata where
  fileName : Str
  fileSize : Nat
  extractedAt : Str
  processingMethod : Str
deriving DecidableEq, Repr

/-- The canonical report shape (`ExtractedReport`). -/
structure ExtractedReport where
  summary : ReportSummary
  goals : List Json
  bmps : List Json
  implementation : List Json
  monitoring : List Json
  outreach : List Json
  geographicAreas : List Json
  metadata : ReportMetadata
deriving DecidableEq, Repr

/-- `Math.round` (JS rounds halves toward positive infinity). -/
def jsRound (q : ℚ) : Int := ⌊q + 1/2⌋

/-- The `metadata.processingMethod` label combining provider and model. -/
def providerLabel (cfg : LLMConfig) : Provider → Str
  | .openai => strOf "OpenAI " ++ cfg.openaiModel
  | .anthropic => strOf "Anthropic " ++ cfg.anthropicModel

/-- `LLMService.structureResponse`: default each category to `[]`, backfill
missing ids (uuid supply consumed in source order: goals, bmps,
implementation, monitoring, outreach, geographicAreas), derive the summary
(rounded completion rate over goal records with `status === "completed"`,
fixed 85 accuracy placeholder) and the metadata. -/
def structureResponse (gen : Nat → Str) (now : Str) (cfg : LLMConfig)
    (extractedData : Json) (fileName : Str) (fileSize : Nat)
    (processingTime : Nat) (providerUsed : Provider) : ExtractedReport :=
  let (goals, k1) := backfillIds gen 0 (collOf extractedData (strOf "goals"))
  let (bmps, k2) := backfillIds gen k1 (collOf extractedData (strOf "bmps"))
  let (implementation, k3) := backfillIds gen k2 (collOf extractedData (strOf "implementation"))
  let (monitoring, k4) := backfillIds gen k3 (collOf extractedData (strOf "monitoring"))
  let (outreach, k5) := backfillIds gen k4 (collOf extractedData (strOf "outreach"))
  let (geographicAreas, _) := backfillIds gen k5 (collOf extractedData (strOf "geographicAreas"))
  let completedGoals :=
    (goals.filter (fun g => decide (jsField g (strOf "status") = some (.str (strOf "completed"))))).length
  let completionRate : ℚ :=
    if 0 < goals.length then ((completedGoals : ℚ) / (goals.length : ℚ)) * 100 else 0
  { summary :=
      { totalGoals := goals.length
        totalBMPs := bmps.length
        completionRate := jsRound completionRate
        extractionAccuracy := 85
        processingTime := processingTime }
    goals := goals
    bmps := bmps
    implementation := implementation
    monitoring := monitoring
    outreach := outreach
    geographicAreas := geographicAreas
    metadata :=
      { fileName := fileName
        fileSize := fileSize
        extractedAt := now
        processingMethod := providerLabel cfg providerUsed } }

/-- Prefix of the exhaustion error message. -/
def aggPre : Str := strOf "Failed to extract data using AI ("

/-- The `for (const provider of providers)` attempt loop: the first success
returns immediately through `finalize`; each failure appends a
`provider: reason` entry; exhaustion raises the aggregate error over
`errors.join(" | ")`. -/
def attemptProviders (oracle : Provider → Except Str Json)
    (finalize : Json → Provider → ExtractedReport) :
    List Provider → List Str → Except Str ExtractedReport
  | [], errors => .error (aggPre ++ List.intercalate (strOf " | ") errors ++ strOf ")")
  | p :: ps, errors =>
    match oracle p with
    | .ok extractedData => .ok (finalize extractedData p)
    | .error e =>
      attemptProviders oracle finalize ps (errors ++ [providerName p ++ strOf ": " ++ e])

/-- `LLMService.extractData` over the call oracle: resolve `allowFallback`
(default `true`), plan the provider order, then run the attempt loop,
finalizing through `structureResponse`. The prompt/`prettyError` plumbing is
inside the oracle; `processingTime`/`now` are the elapsed-time and timestamp
parameters. -/
def extractData (cfg : LLMConfig) (gen : Nat → Str) (now : Str)
    (oracle : Provider → Except Str Json) (fileName : Str) (fileSize : Nat)
    (processingTime : Nat) (options : ExtractionOptions) :
    Except Str ExtractedReport :=
  let allowFallback := options.allowFallback.getD true
  let providers := planProviders cfg options.model allowFallback
  attemptProviders oracle
    (fun d p => structureResponse gen now cfg d fileName fileSize processingTime p)
    providers []

/-! ## The extraction prompt (`LLMService.buildExtractionPrompt`) -/

/-- The fixed prompt body between the banner and the document text (the
template's trailing newline after `Document text:` is re-attached at the
concatenation in `buildExtractionPrompt`). -/
def promptChunk0 : String := "Extract comprehensive data from this watershed plan. Be thorough - watershed plans contain extensive implementation, monitoring, and outreach programs.\n\nEXTRACT ALL relevant items in these categories:\n\n1. GOALS: Objectives, targets, purposes (reduce pollution, improve habitat, protect resources)\n2. BMPs: Management practices (riparian buffers, conservation tillage, wetlands, bank stabilization)  "

def promptChunk1 : String := "3. IMPLEMENTATION: Specific projects/activities with budgets, timelines, responsible parties\n4. MONITORING: Water quality parameters, biological indicators, assessments\n5. OUTREACH: Education, training, workshops, stakeholder engagement\n6. GEOGRAPHIC AREAS: Watersheds, counties, regions, water bodies\n\nReturn valid JSON with this structure:\n\x7b"

def promptChunk2 : String := "  \"goals\": [\x7b\"id\": \"goal_[name]\", \"title\": \"title\", \"description\": \"desc\", \"targetDate\": \"YYYY-MM-DD or null\", \"status\": \"planned|in-progress|completed\", \"priority\": \"low|medium|high\"\x7d],"

def promptChunk3 : String := "  \"bmps\": [\x7b\"id\": \"bmp_[name]\", \"name\": \"name\", \"description\": \"desc\", \"category\": \"Water Quality|Agricultural|Stormwater|Stream Restoration|Other\", \"implementationCost\": number_or_null, \"maintenanceCost\": number_or_null, \"effectiveness\": number_or_null, \"applicableAreas\": [\"areas\"]\x7d],"

def promptChunk4 : String := "  \"implementation\": [\x7b\"id\": \"impl_[name]\", \"name\": \"name\", \"description\": \"desc\", \"startDate\": \"YYYY-MM-DD or null\", \"endDate\": \"YYYY-MM-DD or null\", \"budget\": number_or_null, \"responsible\": \"party or Not specified\", \"status\": \"planned|ongoing|completed\", \"relatedGoals\": [\"goal_ids\"], \"relatedBMPs\": [\"bmp_ids\"]\x7d],"

def promptChunk5 : String := "  \"monitoring\": [\x7b\"id\": \"monitor_[name]\", \"name\": \"name\", \"description\": \"desc\", \"unit\": \"unit or Not specified\", \"targetValue\": number_or_null, \"currentValue\": number_or_null, \"frequency\": \"freq or Not specified\", \"methodology\": \"method or Not specified\", \"responsibleParty\": \"party or Not specified\"\x7d],"

def promptChunk6 : String := "  \"outreach\": [\x7b\"id\": \"outreach_[name]\", \"name\": \"name\", \"description\": \"desc\", \"targetAudience\": \"audience\", \"method\": \"method\", \"timeline\": \"timeline or Ongoing\", \"expectedOutcome\": \"outcome\", \"budget\": number_or_null\x7d],\n  \"geographicAreas\": [\x7b\"id\": \"area_[name]\", \"name\": \"name\", \"type\": \"watershed|county|region|state\", \"area\": number_or_null, \"coordinates\": \x7b\"lat\": number, \"lng\": number\x7d or null, \"characteristics\": [\"features\"]\x7d]\n\x7d\n"

def promptChunk7 : String := "IMPORTANT RULES:\n✅ BE COMPREHENSIVE - don\x27t return empty arrays unless truly no content exists\n✅ Include all projects/activities you find, even with limited details\n✅ Generate descriptive IDs (goal_reduce_phosphorus, bmp_riparian_buffers, impl_streambank_project)\n✅ Use \"Not specified\" for missing required text fields, null for missing numbers\n✅ Link related items via IDs when connections are clear"

def promptChunk8 : String := "✅ Extract from entire document using page markers for context\n\nCRITICAL: Watershed plans are detailed documents. If returning mostly empty arrays, you\x27re being too selective. Look thoroughly for implementation activities, monitoring programs, and outreach efforts - they are standard components.\n\nDocument text:"



def promptBodyS : String :=
  promptChunk0 ++ "\n" ++ promptChunk1 ++ "\n" ++ promptChunk2 ++ "\n" ++ promptChunk3 ++ "\n" ++ promptChunk4 ++ "\n" ++ promptChunk5 ++ "\n" ++ promptChunk6 ++ "\n" ++ promptChunk7 ++ "\n" ++ promptChunk8


/-- Banner text before the interpolated page count. -/
def bannerAS : String := "\n📊 DOCUMENT PROCESSING ENHANCEMENTS:\n✅"


/-- Banner text after the interpolated page count (its final newline is
re-attached at the concatenation in `pageAnalysisOf`). -/
def bannerTailS : String := "pages processed individually\n✅ Page markers (=== PAGE N ===) added for location tracking  \n✅ Line breaks preserved, hyphenated terms fixed\n✅ Headers/footers stripped\n"

/-- Decimal rendering of a `Nat`, as template interpolation does. -/
def natStr (n : Nat) : Str := (Nat.repr n).data

/-- The truncation marker appended when the document text was cut. -/
def truncMarker : Str := strOf "...[truncated]"

/-- The "processing enhancements" banner: present exactly when page texts are
supplied and non-empty; the interpolation points around the page count are
explicit concatenations. -/
def pageAnalysisOf : Option (List Str) → Str
  | some l =>
    if 0 < l.length then
      strOf bannerAS ++ ' ' :: (natStr l.length ++ ' ' :: (strOf bannerTailS ++ ['\n']))
    else []
  | none => []

/-- `LLMService.buildExtractionPrompt`: banner, fixed body, newline, the
document text truncated to its first 16,000 characters, a space, the
conditional `...[truncated]` marker, and the final newline. -/
def buildExtractionPrompt (text : Str) (pageTexts : Option (List Str)) : Str :=
  pageAnalysisOf pageTexts ++ strOf promptBodyS
    ++ '\n' :: (text.take 16000 ++ ' ' :: ((if 16000 < text.length then truncMarker else []) ++ ['\n']))

/-! ## PDF processor: text cleaning, page splitting, header/footer stripping -/

/-- Strip a (lowercase) literal pattern case-insensitively from the front of
the input, returning the remainder on success. -/
def stripCI : Str → Str → Option Str
  | [], s => some s
  | _ :: _, [] => none
  | p :: ps, c :: cs => if lowerCh c == p then stripCI ps cs else none

theorem len_dropWhile_le {α : Type} (p : α → Bool) :
    ∀ l : List α, (l.dropWhile p).length ≤ l.length
  | [] => by simp [List.dropWhile]
  | a :: l => by
      simp only [List.dropWhile]
      split
      · exact Nat.le_trans (len_dropWhile_le p l) (Nat.le_succ _)
      · exact Nat.le_refl _

theorem stripCI_length : ∀ (p s r : Str), stripCI p s = some r → r.length ≤ s.length
  | [], s, r => by intro h; simp [stripCI] at h; subst h; exact Nat.le_refl _
  | _ :: _, [], r => by intro h; simp [stripCI] at h
  | p :: ps, c :: cs, r => by
      intro h
      simp only [stripCI] at h
      split at h
      · have := stripCI_length ps cs r h
        simp only [List.length_cons]
        omega
      · exact absurd h (by simp)

/-- One global pass of `.replace(/(\w+)-\n+(\w+)/g, "$1$2")`: a word run,
a hyphen, one or more newlines, a word run; matched spans are joined and the
scan continues after the match, a failed position advances past the word run
that cannot start a later match. -/
def fixHyphensGo : Nat → Str → Str
  | 0, _ => []
  | _ + 1, [] => []
  | fuel + 1, c :: cs =>
    if isWordChar c then
      let w1 : Str := c :: cs.takeWhile isWordChar
      let r1 := cs.dropWhile isWordChar
      if r1.head? = some '-' then
        let r2 := r1.tail
        let nls := r2.takeWhile (fun d => d == '\n')
        let r3 := r2.dropWhile (fun d => d == '\n')
        let w2 := r3.takeWhile isWordChar
        if nls.isEmpty || w2.isEmpty then w1 ++ '-' :: fixHyphensGo fuel r2
        else w1 ++ w2 ++ fixHyphensGo fuel (r3.dropWhile isWordChar)
      else w1 ++ fixHyphensGo fuel r1
    else c :: fixHyphensGo fuel cs

/-- One global pass of the hyphenation regex; the fuel `length + 1` strictly
dominates the scan (every recursive call drops at least one character), so
the bounded recursion never cuts off. -/
def fixHyphens (s : Str) : Str := fixHyphensGo (s.length + 1) s

/-- One global pass of a `/<w1>-\s*\n+\s*<w2>/gi → repl` replacement (as in
`water-\s*\n+\s*shed → watershed`): since the letter after the whitespace
part is not whitespace, the three groups jointly consume the maximal
whitespace run after the hyphen, which must contain a newline. -/
def fixCompoundGo (w1 w2 repl : Str) : Nat → Str → Str
  | 0, _ => []
  | _ + 1, [] => []
  | fuel + 1, c :: cs =>
    match stripCI w1 (c :: cs) with
    | some r1 =>
      if r1.head? = some '-' then
        let r2 := r1.tail
        let ws := r2.takeWhile isWsChar
        let r3 := r2.dropWhile isWsChar
        if ws.any (fun d => d == '\n') then
          match stripCI w2 r3 with
          | some r4 => repl ++ fixCompoundGo w1 w2 repl fuel r4
          | none => c :: fixCompoundGo w1 w2 repl fuel cs
        else c :: fixCompoundGo w1 w2 repl fuel cs
      else c :: fixCompoundGo w1 w2 repl fuel cs
    | none => c :: fixCompoundGo w1 w2 repl fuel cs

/-- One global compound-word pass; as for `fixHyphensGo`, fuel `length + 1`
strictly dominates the scan, so the bounded recursion never cuts off. -/
def fixCompound (w1 w2 repl : Str) (s : Str) : Str :=
  fixCompoundGo w1 w2 repl (s.length + 1) s

/-- One global pass of `.replace(/\n\x7b4,\x7d/g, "\n\n\n")`: each maximal
newline run of length at least four collapses to three. -/
def capNewlinesGo : Nat → Str → Str
  | 0, _ => []
  | _ + 1, [] => []
  | fuel + 1, c :: cs =>
    if c == '\n' then
      let run := 1 + (cs.takeWhile (fun d => d == '\n')).length
      let rest := cs.dropWhile (fun d => d == '\n')
      (if 4 ≤ run then strOf "\n\n\n" else List.replicate run '\n') ++ capNewlinesGo fuel rest
    else c :: capNewlinesGo fuel cs

/-- One global `\n`-run-capping pass (fuel `length + 1` never cuts off). -/
def capNewlines (s : Str) : Str := capNewlinesGo (s.length + 1) s

/-- One global pass of `.replace(/[ \t]+/g, " ")`: each maximal space/tab run
collapses to one space. -/
def collapseSpacesGo : Nat → Str → Str
  | 0, _ => []
  | _ + 1, [] => []
  | fuel + 1, c :: cs =>
    if c == ' ' || c == '\t' then
      ' ' :: collapseSpacesGo fuel (cs.dropWhile (fun d => d == ' ' || d == '\t'))
    else c :: collapseSpacesGo fuel cs

/-- One global space/tab-run-collapsing pass (fuel `length + 1` never cuts
off). -/
def collapseSpaces (s : Str) : Str := collapseSpacesGo (s.length + 1) s

/-- The minimal-cleaning pipeline of `fallbackPageExtraction`, in source
order: hyphenation repair, the two compound-word repairs, newline capping,
space collapsing, trim. -/
def cleanText (raw : Str) : Str :=
  jsTrim (collapseSpaces (capNewlines
    (fixCompound (strOf "non") (strOf "point") (strOf "nonpoint")
      (fixCompound (strOf "water") (strOf "shed") (strOf "watershed")
        (fixHyphens raw)))))

/-- `/^\s*<label>\s+\d+\s*$/i` (for `page`, `chapter`, `section`). -/
def labelNumPat (label : Str) (t : Str) : Bool :=
  let t1 := t.dropWhile isWsChar
  match stripCI label t1 with
  | none => false
  | some r =>
    let sp := r.takeWhile isWsChar
    let r2 := r.dropWhile isWsChar
    let ds := r2.takeWhile isDigitCh
    let r3 := r2.dropWhile isDigitCh
    !sp.isEmpty && !ds.isEmpty && r3.all isWsChar

/-- `/^\s*\d+\s*$/`. -/
def bareNumPat (t : Str) : Bool :=
  let t1 := t.dropWhile isWsChar
  let ds := t1.takeWhile isDigitCh
  !ds.isEmpty && (t1.dropWhile isDigitCh).all isWsChar

/-- `/^\s*\d\x7b4\x7d\s*$/`: exactly four digits. -/
def yearPat (t : Str) : Bool :=
  let t1 := t.dropWhile isWsChar
  let ds := t1.takeWhile isDigitCh
  ds.length == 4 && (t1.dropWhile isDigitCh).all isWsChar

/-- `/^\s*<word>\s*$/i` (for `draft`, `final`). -/
def wordPat (w : Str) (t : Str) : Bool :=
  let t1 := t.dropWhile isWsChar
  match stripCI w t1 with
  | none => false
  | some r => r.all isWsChar

/-- `/^\s*watershed\s+(plan|management|strategy)\s*$/i`. -/
def watershedPat (t : Str) : Bool :=
  let t1 := t.dropWhile isWsChar
  match stripCI (strOf "watershed") t1 with
  | none => false
  | some r =>
    let sp := r.takeWhile isWsChar
    let r2 := r.dropWhile isWsChar
    !sp.isEmpty &&
      ((match stripCI (strOf "plan") r2 with | some r3 => r3.all isWsChar | none => false) ||
       (match stripCI (strOf "management") r2 with | some r3 => r3.all isWsChar | none => false) ||
       (match stripCI (strOf "strategy") r2 with | some r3 => r3.all isWsChar | none => false))

/-- Disjunction of the eight header/footer patterns, applied to a trimmed
line. -/
def isHeaderFooter (t : Str) : Bool :=
  labelNumPat (strOf "page") t || bareNumPat t || wordPat (strOf "draft") t ||
    wordPat (strOf "final") t || watershedPat t || yearPat t ||
    labelNumPat (strOf "chapter") t || labelNumPat (strOf "section") t

/-- `PDFProcessor.removeHeadersFooters`: segments of fewer than five lines
pass through unchanged; otherwise a non-blank line matching a pattern is
dropped when its index is in the first three or last three. -/
def removeHeadersFooters (text : Str) (_pageNum : Nat) : Str :=
  let lines := splitNl text
  if lines.length < 5 then text
  else
    let kept := (lines.enum.filter (fun p =>
      let trimmed := jsTrim p.2
      if trimmed.isEmpty then true
      else if isHeaderFooter trimmed && (decide (p.1 < 3) || decide (lines.length - 3 ≤ p.1))
        then false
      else true)).map Prod.snd
    joinNl kept

/-- `PDFProcessor.cleanPageText`: header/footer stripping, newline capping,
trim. -/
def cleanPageText (text : Str) (pageNum : Nat) : Str :=
  jsTrim (capNewlines (removeHeadersFooters text pageNum))

/-- The boundary nudging of `fallbackPageExtraction` (floats `0.4`/`0.3`
modelled as the exact rationals `2/5`/`3/10`; the settled statements never
reach these comparisons). -/
def nudgeBoundary (c : Str) (avg : Nat) (e : Int) : Int :=
  let nd := jsIndexOf c (strOf "\n\n") e
  let pd := jsLastIndexOf c (strOf "\n\n") e
  let nn := jsIndexOf c (strOf "\n") e
  let pn := jsLastIndexOf c (strOf "\n") e
  if nd ≠ -1 ∧ ((nd - e : ℤ) : ℚ) < (avg : ℚ) * (2/5) then nd
  else if pd ≠ -1 ∧ ((e - pd : ℤ) : ℚ) < (avg : ℚ) * (2/5) then pd
  else if nn ≠ -1 ∧ ((nn - e : ℤ) : ℚ) < (avg : ℚ) * (3/10) then nn
  else if pn ≠ -1 ∧ ((e - pn : ℤ) : ℚ) < (avg : ℚ) * (3/10) then pn
  else e

/-- The page loop of `fallbackPageExtraction`: `rem` pages remain, `i` pages
are done (`rem + i = numPages` throughout, so `i < numPages - 1` is
`1 ≤ rem`); every page but the last ends at the nudged estimated boundary,
the last absorbs the remainder; a segment that trims to empty is skipped,
others are pushed after per-page cleaning; `start` advances to the chosen
boundary either way. -/
def pageLoop (c : Str) (avg : Nat) : Nat → Nat → Int → List Str
  | 0, _, _ => []
  | rem + 1, i, start =>
    let e :=
      if 1 ≤ rem then nudgeBoundary c avg (start + (avg : Int))
      else (c.length : Int)
    let pageText := jsTrim (jsSubstring c start e)
    (if pageText.isEmpty then [] else [cleanPageText pageText (i + 1)]) ++
      pageLoop c avg rem (i + 1) e

/-- `PDFProcessor.fallbackPageExtraction` from the raw extracted text on:
empty-text guard, minimal cleaning, then the single-page path or the
estimated-boundary split with `avgPageLength = ⌊length / numPages⌋`. -/
def fallbackPageExtraction (raw : Str) (numPages : Nat) : List Str :=
  if (jsTrim raw).isEmpty then []
  else
    let cleanedText := cleanText raw
    if numPages ≤ 1 then [cleanPageText cleanedText 1]
    else
      let avgPageLength := cleanedText.length / numPages
      pageLoop cleanedText avgPageLength numPages 0 0

/-- `PDFProcessor.combineWithPageMarkers`: `=== PAGE n ===` marker, newline,
page text; pages joined by blank lines. -/
def combineWithPageMarkers (pageTexts : List Str) : Str :=
  List.intercalate (strOf "\n\n")
    (pageTexts.enum.map (fun p =>
      strOf "=== PAGE " ++ natStr (p.1 + 1) ++ strOf " ===" ++ '\n' :: p.2))

/-! ## Claim C7: provider planning -/

/-- C7: `planProviders` returns the single configured provider as the sole
plan entry when only one provider has credentials (regardless of the
preferred option); when both are configured it returns `[preferred, other]`
when `allowFallback` is true and `[preferred]` alone when it is false, with
`preferred` defaulting to OpenAI when unspecified. -/
theorem C7_planProviders (om am : Str) (fb : Bool) :
    (∀ pref fb2, planProviders ⟨true, false, om, am⟩ pref fb2 = [.openai]) ∧
    (∀ pref fb2, planProviders ⟨false, true, om, am⟩ pref fb2 = [.anthropic]) ∧
    (∀ p, planProviders ⟨true, true, om, am⟩ (some p) true
        = [p, if p = .openai then .anthropic else .openai]) ∧
    (∀ p, planProviders ⟨true, true, om, am⟩ (some p) false = [p]) ∧
    planProviders ⟨true, true, om, am⟩ none fb
      = planProviders ⟨true, true, om, am⟩ (some .openai) fb := by
  refine ⟨?_, ?_, ?_, ?_, ?_⟩
  · intro pref fb2; simp [planProviders]
  · intro pref fb2; simp [planProviders]
  · intro p; simp [planProviders]
  · intro p; simp [planProviders]
  · simp [planProviders]

/-! ## Claim C10: header/footer stripping -/

/-- The claim-side removal condition: a non-blank line whose trimmed content
matches a header/footer pattern and whose index is below three or at least
the line count minus three. -/
def hfRemoved (n i : Nat) (line : Str) : Bool :=
  !(jsTrim line).isEmpty && isHeaderFooter (jsTrim line)
    && (decide (i < 3) || decide (n - 3 ≤ i))

theorem keepLine_eq_not_hfRemoved (n i : Nat) (l : Str) :
    (let trimmed := jsTrim l
     if trimmed.isEmpty then true
     else if isHeaderFooter trimmed && (decide (i < 3) || decide (n - 3 ≤ i)) then false
     else true) = !hfRemoved n i l := by
  simp only [hfRemoved]
  cases h1 : (jsTrim l).isEmpty <;>
    cases h2 : isHeaderFooter (jsTrim l) <;>
      cases h3 : (decide (i < 3) || decide (n - 3 ≤ i)) <;> simp [h1, h2, h3]

/-- C10: `removeHeadersFooters` returns its input unchanged whenever the
segment has fewer than five lines; for five or more lines, exactly the
non-blank lines whose trimmed content matches a header/footer pattern and
whose index is below three or at least the line count minus three are
removed, all other lines being kept in order. -/
theorem C10_removeHeadersFooters (text : Str) (pn : Nat) :
    ((splitNl text).length < 5 → removeHeadersFooters text pn = text) ∧
    (5 ≤ (splitNl text).length →
      removeHeadersFooters text pn =
        joinNl (((splitNl text).enum.filter
          (fun p => !hfRemoved (splitNl text).length p.1 p.2)).map Prod.snd)) := by
  constructor
  · intro h
    simp [removeHeadersFooters, h]
  · intro h
    have h2 : ¬ (splitNl text).length < 5 := by omega
    simp only [removeHeadersFooters, if_neg h2]
    congr 1
    congr 1
    apply List.filter_congr
    intro p _
    exact keepLine_eq_not_hfRemoved (splitNl text).length p.1 p.2

/-- C10 witness: a four-line segment of pure header/footer lines passes
through unchanged, and a five-line segment drops exactly its pattern lines. -/
theorem C10_removeHeadersFooters_witness :
    ((splitNl (strOf "Page 3\nhello\n1\nDRAFT")).length < 5 ∧
      removeHeadersFooters (strOf "Page 3\nhello\n1\nDRAFT") 1
        = strOf "Page 3\nhello\n1\nDRAFT") ∧
    (5 ≤ (splitNl (strOf "1\nA\n2\nB\n3")).length ∧
      removeHeadersFooters (strOf "1\nA\n2\nB\n3") 2
        = joinNl (((splitNl (strOf "1\nA\n2\nB\n3")).enum.filter
            (fun p => !hfRemoved (splitNl (strOf "1\nA\n2\nB\n3")).length p.1 p.2)).map
              Prod.snd)) :=
  ⟨⟨by decide, (C10_removeHeadersFooters (strOf "Page 3\nhello\n1\nDRAFT") 1).1 (by decide)⟩,
   ⟨by decide, (C10_removeHeadersFooters (strOf "1\nA\n2\nB\n3") 2).2 (by decide)⟩⟩


/-! ## Claim C4: OpenAI-path JSON repair -/

/-- C4 counterexample: the raw content `[{}` fails to parse and its trimmed
form ends in `}`, so the code skips the count-based repair and returns the
empty skeleton — although the repair described by the claim (append one `]`)
would reparse to the array `[{}]`, not the skeleton. -/
theorem C4_counterexample :
    extractWithOpenAI (strOf "[\x7b\x7d") = emptySkeleton ∧
    parseJson (fixJson (strOf "[\x7b\x7d")) = some (Json.arr [Json.obj []]) ∧
    emptySkeleton ≠ Json.arr [Json.obj []] := by
  refine ⟨by decide, by decide, by decide⟩

/-- C4 (amended): on a parse failure `extractWithOpenAI` attempts the
structural repair — appending `(count of [ − count of ]) ` closing brackets
followed by `(count of { − count of }) ` closing braces and reparsing — only
when the trimmed content does not already end in `}`; when it does, or when
repair fails, the empty canonical skeleton is returned, so the function never
fails on malformed JSON; the raw string `{"goals": [{"id":"g1"}]` repairs and
reparses to the object `{"goals":[{"id":"g1"}]}`. -/
theorem C4_openai_repair :
    (∀ content : Str, parseJson content = none → (jsTrim content).getLast? ≠ some '}' →
      extractWithOpenAI content =
        (parseJson (content
            ++ List.replicate ((countCh content '[' : Int) - (countCh content ']' : Int)).toNat ']'
            ++ List.replicate ((countCh content '{' : Int) - (countCh content '}' : Int)).toNat '}')).getD
          emptySkeleton) ∧
    (∀ content : Str, parseJson content = none → (jsTrim content).getLast? = some '}' →
      extractWithOpenAI content = emptySkeleton) ∧
    (∀ content : Str,
      extractWithOpenAI content = emptySkeleton ∨
        parseJson content = some (extractWithOpenAI content) ∨
        parseJson (fixJson content) = some (extractWithOpenAI content)) ∧
    extractWithOpenAI (strOf "\x7b\"goals\": [\x7b\"id\":\"g1\"\x7d]")
      = Json.obj [(strOf "goals", Json.arr [Json.obj [(strOf "id", Json.str (strOf "g1"))]])] := by
  refine ⟨?_, ?_, ?_, by decide⟩
  · intro content h1 h2
    simp only [extractWithOpenAI, h1, if_pos h2, fixJson]
    cases h3 : parseJson (content
        ++ List.replicate ((countCh content '[' : Int) - (countCh content ']' : Int)).toNat ']'
        ++ List.replicate ((countCh content '{' : Int) - (countCh content '}' : Int)).toNat '}') <;>
      simp [h3]
  · intro content h1 h2
    simp only [extractWithOpenAI, h1]
    rw [if_neg (by simp [h2])]
  · intro content
    simp only [extractWithOpenAI]
    cases h1 : parseJson content with
    | some j => right; left; rfl
    | none =>
      by_cases h2 : (jsTrim content).getLast? ≠ some '}'
      · rw [if_pos h2]
        cases h3 : parseJson (fixJson content) with
        | some j => right; right; simp [h3]
        | none => left; simp [h3]
      · rw [if_neg h2]
        left; rfl

/-- C4 witness: the amended repair branch applied at the claim example
`{"goals": [{"id":"g1"}]`, whose hypotheses hold concretely. -/
theorem C4_openai_repair_witness :
    parseJson (strOf "\x7b\"goals\": [\x7b\"id\":\"g1\"\x7d]") = none ∧
    (jsTrim (strOf "\x7b\"goals\": [\x7b\"id\":\"g1\"\x7d]")).getLast? ≠ some '}' ∧
    extractWithOpenAI (strOf "\x7b\"goals\": [\x7b\"id\":\"g1\"\x7d]")
      = (parseJson ((strOf "\x7b\"goals\": [\x7b\"id\":\"g1\"\x7d]")
          ++ List.replicate ((countCh (strOf "\x7b\"goals\": [\x7b\"id\":\"g1\"\x7d]") '[' : Int)
              - (countCh (strOf "\x7b\"goals\": [\x7b\"id\":\"g1\"\x7d]") ']' : Int)).toNat ']'
          ++ List.replicate ((countCh (strOf "\x7b\"goals\": [\x7b\"id\":\"g1\"\x7d]") '{' : Int)
              - (countCh (strOf "\x7b\"goals\": [\x7b\"id\":\"g1\"\x7d]") '}' : Int)).toNat '}')).getD
        emptySkeleton :=
  ⟨by decide, by decide,
    C4_openai_repair.1 (strOf "\x7b\"goals\": [\x7b\"id\":\"g1\"\x7d]") (by decide) (by decide)⟩


/-! ## Claim C8: Anthropic-path brace-region extraction -/

theorem single_isPrefixOf_iff (c : Char) (l : Str) :
    [c].isPrefixOf l = true ↔ l.head? = some c := by
  cases l with
  | nil => simp [List.isPrefixOf]
  | cons a t =>
    simp only [List.isPrefixOf, List.head?, Bool.and_eq_true, Option.some.injEq]
    constructor
    · rintro ⟨h, _⟩
      exact (eq_of_beq h).symm
    · intro h
      exact ⟨by simp [h], by simp [List.isPrefixOf]⟩

theorem head?_drop_eq (l : Str) : ∀ i, (l.drop i).head? = l.get? i := by
  induction l with
  | nil => intro i; cases i <;> simp
  | cons a t ih =>
    intro i
    cases i with
    | zero => simp
    | succ n => simp only [List.drop_succ_cons, List.get?_cons_succ]; exact ih n

/-- Where `idxScan` finds a single-character needle starting from position
`k`: either no occurrence at or after `k`, or the first such occurrence. -/
theorem idxScan_single_spec (s : Str) (c : Char) (k : Nat) :
    (idxScan [c] (s.drop k) k = -1 ∧ ∀ i, k ≤ i → s.get? i ≠ some c) ∨
      (∃ i : Nat, idxScan [c] (s.drop k) k = (i : Int) ∧ k ≤ i ∧ s.get? i = some c ∧
        ∀ i2, k ≤ i2 → i2 < i → s.get? i2 ≠ some c) := by
  cases hd : s.drop k with
  | nil =>
    left
    constructor
    · simp [idxScan]
    · intro i hi
      have hlen : s.length ≤ k := List.drop_eq_nil_iff.mp hd
      rw [List.get?_eq_none.mpr (by omega)]
      simp
  | cons a t =>
    have hlt : k < s.length := by
      by_contra hcon
      rw [List.drop_eq_nil_iff.mpr (by omega)] at hd
      exact List.noConfusion hd
    have ht : t = s.drop (k + 1) := by
      have h2 := List.tail_drop s k
      rw [hd] at h2
      simp only [List.tail_cons] at h2
      exact h2
    have hheadk : s.get? k = some a := by
      have h2 := head?_drop_eq s k
      rw [hd] at h2
      simpa using h2.symm
    by_cases hp : [c].isPrefixOf (a :: t) = true
    · right
      have hac : a = c := by
        have h2 := (single_isPrefixOf_iff c (a :: t)).mp hp
        simpa using h2
      refine ⟨k, ?_, Nat.le_refl k, by rw [hheadk, hac], ?_⟩
      · simp [idxScan, hp]
      · intro i2 h1 h2
        omega
    · have hstep : idxScan [c] (a :: t) k = idxScan [c] (s.drop (k + 1)) (k + 1) := by
        simp only [idxScan]
        rw [if_neg hp, ht]
      have hknot : s.get? k ≠ some c := by
        rw [hheadk]
        intro hcon
        apply hp
        rw [single_isPrefixOf_iff c (a :: t)]
        simpa using hcon
      rcases idxScan_single_spec s c (k + 1) with ⟨h1, h2⟩ | ⟨i, h1, h2, h3, h4⟩
      · left
        refine ⟨by rw [hstep]; exact h1, ?_⟩
        intro i hi
        rcases Nat.eq_or_lt_of_le hi with rfl | hl
        · exact hknot
        · exact h2 i hl
      · right
        refine ⟨i, by rw [hstep]; exact h1, by omega, h3, ?_⟩
        intro i2 ha2 hb2
        rcases Nat.eq_or_lt_of_le ha2 with rfl | hl
        · exact hknot
        · exact h4 i2 hl hb2
termination_by s.length - k
decreasing_by omega

/-- Where `lastIdxAux` finds a single-character needle: either no occurrence
at or before `k`, or the last such occurrence. -/
theorem lastIdxAux_single_spec (s : Str) (c : Char) :
    ∀ k : Nat, (lastIdxAux s [c] k = -1 ∧ ∀ j, j ≤ k → s.get? j ≠ some c) ∨
      (∃ j : Nat, lastIdxAux s [c] k = (j : Int) ∧ j ≤ k ∧ s.get? j = some c ∧
        ∀ j2, j < j2 → j2 ≤ k → s.get? j2 ≠ some c) := by
  intro k
  induction k with
  | zero =>
    by_cases hp : [c].isPrefixOf s = true
    · right
      refine ⟨0, ?_, Nat.le_refl 0, ?_, ?_⟩
      · simp [lastIdxAux, hp]
      · have := (single_isPrefixOf_iff c s).mp hp
        rw [← head?_drop_eq s 0]
        simpa using this
      · intro j2 h1 h2
        omega
    · left
      constructor
      · simp only [lastIdxAux]
        rw [if_neg hp]
      · intro j hj
        have hj0 : j = 0 := by omega
        subst hj0
        rw [← head?_drop_eq s 0]
        intro hcon
        exact hp ((single_isPrefixOf_iff c (s.drop 0)).mpr (by simpa using hcon))
  | succ n ih =>
    by_cases hp : [c].isPrefixOf (s.drop (n + 1)) = true
    · right
      refine ⟨n + 1, ?_, Nat.le_refl _, ?_, ?_⟩
      · simp only [lastIdxAux]
        rw [if_pos hp]
      · rw [← head?_drop_eq]
        exact (single_isPrefixOf_iff c (s.drop (n + 1))).mp hp
      · intro j2 h1 h2
        omega
    · have hknot : s.get? (n + 1) ≠ some c := by
        rw [← head?_drop_eq]
        intro hcon
        exact hp ((single_isPrefixOf_iff c (s.drop (n + 1))).mpr hcon)
      have hstep : lastIdxAux s [c] (n + 1) = lastIdxAux s [c] n := by
        simp only [lastIdxAux]
        rw [if_neg hp]
      rcases ih with ⟨h1, h2⟩ | ⟨j, h1, h2, h3, h4⟩
      · left
        refine ⟨by rw [hstep]; exact h1, ?_⟩
        intro j hj
        rcases Nat.eq_or_lt_of_le hj with rfl | hlt
        · exact hknot
        · exact h2 j (by omega)
      · right
        refine ⟨j, by rw [hstep]; exact h1, by omega, h3, ?_⟩
        intro j2 ha hb
        rcases Nat.eq_or_lt_of_le hb with rfl | hlt
        · exact hknot
        · exact h4 j2 ha (by omega)

/-- C8: `extractWithAnthropic` matches the greedy brace-delimited region —
present exactly when some `{` precedes some `}`, spanning the first `{`
through the last `}` — and parses that substring as JSON; a missing region
or a parse failure of the region is a hard error (no repair, no skeleton),
feeding the orchestrator's fallback. -/
theorem C8_anthropic_region (s : Str) :
    ((∃ region, jsonMatch s = some region) ↔
      ∃ p q : Nat, p < q ∧ s.get? p = some '{' ∧ s.get? q = some '}') ∧
    (∀ region, jsonMatch s = some region →
      region = jsSubstring s (jsIndexOf s ['{'] 0) (jsLastIndexOf s ['}'] (s.length : Int) + 1) ∧
      ((∃ j, parseJson region = some j ∧ extractWithAnthropic s = .ok j) ∨
        (parseJson region = none ∧ ∃ e, extractWithAnthropic s = .error e))) ∧
    (jsonMatch s = none → ∃ e, extractWithAnthropic s = .error e) := by
  have hclamp0 : min (Int.toNat 0) s.length = 0 := by simp
  have hclampL : min (Int.toNat (s.length : Int)) s.length = s.length := by simp
  refine ⟨?_, ?_, ?_⟩
  · constructor
    · rintro ⟨region, hreg⟩
      simp only [jsonMatch, jsIndexOf, jsLastIndexOf, hclamp0, hclampL] at hreg
      split at hreg
      · rename_i hcond
        obtain ⟨hi, hj, hij⟩ := hcond
        rcases idxScan_single_spec s '{' 0 with ⟨h1, _⟩ | ⟨i0, h1, _, h3, _⟩
        · exact absurd h1 hi
        · rcases lastIdxAux_single_spec s '}' s.length with ⟨g1, _⟩ | ⟨j0, g1, _, g3, _⟩
          · exact absurd g1 hj
          · refine ⟨i0, j0, ?_, h3, g3⟩
            rw [h1, g1] at hij
            exact_mod_cast hij
      · exact absurd hreg (by simp)
    · rintro ⟨p, q, hpq, hp, hq⟩
      simp only [jsonMatch, jsIndexOf, jsLastIndexOf, hclamp0, hclampL]
      rcases idxScan_single_spec s '{' 0 with ⟨h1, h2⟩ | ⟨i0, h1, _, _, h4⟩
      · exact absurd hp (h2 p (Nat.zero_le p))
      · rcases lastIdxAux_single_spec s '}' s.length with ⟨g1, g2⟩ | ⟨j0, g1, _, _, g4⟩
        · have hqlen : q ≤ s.length := by
            by_contra hcon
            rw [List.get?_eq_none.mpr (by omega)] at hq
            exact Option.noConfusion hq
          exact absurd hq (g2 q hqlen)
        · have hi0p : i0 ≤ p := by
            by_contra hcon
            exact h4 p (Nat.zero_le p) (by omega) hp
          have hqj0 : q ≤ j0 := by
            by_contra hcon
            have hqlen : q ≤ s.length := by
              by_contra hcon2
              rw [List.get?_eq_none.mpr (by omega)] at hq
              exact Option.noConfusion hq
            exact g4 q (by omega) hqlen hq
          rw [h1, g1]
          rw [if_pos ⟨by simp, by simp, by exact_mod_cast by omega⟩]
          exact ⟨_, rfl⟩
  · intro region hreg
    have hsub : region = jsSubstring s (jsIndexOf s ['{'] 0)
        (jsLastIndexOf s ['}'] (s.length : Int) + 1) := by
      simp only [jsonMatch] at hreg
      split at hreg
      · simpa using hreg.symm
      · exact absurd hreg (by simp)
    refine ⟨hsub, ?_⟩
    simp only [extractWithAnthropic, hreg]
    cases hp : parseJson region with
    | some j => left; exact ⟨j, rfl, rfl⟩
    | none => right; exact ⟨rfl, _, rfl⟩
  · intro hnone
    simp only [extractWithAnthropic, hnone]
    exact ⟨_, rfl⟩

/-- C8 witness: a response with a parsable brace region returns that parse;
a brace-free response errors. -/
theorem C8_anthropic_region_witness :
    (∃ j, parseJson (strOf "\x7b\"a\": true\x7d") = some j ∧
      extractWithAnthropic (strOf "text \x7b\"a\": true\x7d tail") = .ok j) ∧
    (∃ e, extractWithAnthropic (strOf "no region here") = .error e) := by
  constructor
  · have h := (C8_anthropic_region (strOf "text \x7b\"a\": true\x7d tail")).2.1
      (strOf "\x7b\"a\": true\x7d") (by decide)
    rcases h.2 with hok | ⟨hfail, _⟩
    · exact hok
    · exact absurd hfail (by decide)
  · exact (C8_anthropic_region (strOf "no region here")).2.2 (by decide)


/-! ## Claims C1 and C2: orchestrator fallback and aggregate failure -/

instance {α β : Type} [DecidableEq α] [DecidableEq β] : DecidableEq (Except α β) := fun a b =>
  match a, b with
  | .ok x, .ok y =>
    if h : x = y then isTrue (by rw [h]) else isFalse (fun hc => h (Except.ok.inj hc))
  | .error x, .error y =>
    if h : x = y then isTrue (by rw [h]) else isFalse (fun hc => h (Except.error.inj hc))
  | .ok _, .error _ => isFalse (fun hc => Except.noConfusion hc)
  | .error _, .ok _ => isFalse (fun hc => Except.noConfusion hc)

/-- The failure reason recorded for a provider by the attempt loop. -/
def errOf (oracle : Provider → Except Str Json) (p : Provider) : Str :=
  match oracle p with
  | .error e => e
  | .ok _ => []

/-- A successful head provider short-circuits the attempt loop, whatever the
remaining plan and accumulated errors are. -/
theorem attemptProviders_ok_head (oracle : Provider → Except Str Json)
    (F : Json → Provider → ExtractedReport) (p : Provider) (ps : List Provider)
    (d : Json) (errs : List Str) (h : oracle p = .ok d) :
    attemptProviders oracle F (p :: ps) errs = .ok (F d p) := by
  simp [attemptProviders, h]

/-- When every planned provider fails, the loop returns the aggregate error
over the accumulated and per-provider reasons joined by `" | "`. -/
theorem attemptProviders_all_fail (oracle : Provider → Except Str Json)
    (F : Json → Provider → ExtractedReport) :
    ∀ (ps : List Provider) (errs : List Str),
      (∀ p ∈ ps, ∃ e, oracle p = .error e) →
      attemptProviders oracle F ps errs
        = .error (aggPre ++ List.intercalate (strOf " | ")
            (errs ++ ps.map (fun p => providerName p ++ strOf ": " ++ errOf oracle p))
            ++ strOf ")") := by
  intro ps
  induction ps with
  | nil => intro errs _; simp [attemptProviders]
  | cons p ps ih =>
    intro errs h
    obtain ⟨e, he⟩ := h p (by simp)
    have hrest : ∀ q ∈ ps, ∃ e2, oracle q = .error e2 := fun q hq => h q (by simp [hq])
    simp only [attemptProviders, he]
    rw [ih (errs ++ [providerName p ++ strOf ": " ++ e]) hrest]
    simp [errOf, he, List.append_assoc]

/-- An error outcome of the attempt loop means every planned provider
failed. -/
theorem attemptProviders_isError (oracle : Provider → Except Str Json)
    (F : Json → Provider → ExtractedReport) :
    ∀ (ps : List Provider) (errs : List Str) (r : Str),
      attemptProviders oracle F ps errs = .error r →
      ∀ p ∈ ps, ∃ e, oracle p = .error e := by
  intro ps
  induction ps with
  | nil => intro errs r _ p hp; exact absurd hp (by simp)
  | cons q ps ih =>
    intro errs r hres p hp
    cases ho : oracle q with
    | ok d =>
      rw [attemptProviders_ok_head oracle F q ps d errs ho] at hres
      exact Except.noConfusion hres
    | error e =>
      simp only [attemptProviders, ho] at hres
      rcases List.mem_cons.mp hp with rfl | hmem
      · exact ⟨e, ho⟩
      · exact ih _ r hres p hmem

/-- C1: with a two-provider plan whose first provider fails and whose second
succeeds (the `allowFallback = true` layout), `extractData` returns the
report finalized from the second provider's output, and that report's
`metadata.processingMethod` is the second provider's label; in general the
attempt loop returns on the first successful provider, independently of every
later planned provider. -/
theorem C1_fallback_second_provider (cfg : LLMConfig) (gen : Nat → Str) (now : Str)
    (oracle : Provider → Except Str Json) (fn : Str) (fs pt : Nat)
    (opts : ExtractionOptions) (p1 p2 : Provider) (e : Str) (d : Json)
    (hplan : planProviders cfg opts.model (opts.allowFallback.getD true) = [p1, p2])
    (h1 : oracle p1 = .error e) (h2 : oracle p2 = .ok d) :
    extractData cfg gen now oracle fn fs pt opts
      = .ok (structureResponse gen now cfg d fn fs pt p2) ∧
    (structureResponse gen now cfg d fn fs pt p2).metadata.processingMethod
      = providerLabel cfg p2 ∧
    (∀ (oracle2 : Provider → Except Str Json) (F : Json → Provider → ExtractedReport)
        (p : Provider) (ps : List Provider) (d2 : Json) (errs : List Str),
      oracle2 p = .ok d2 →
      attemptProviders oracle2 F (p :: ps) errs = .ok (F d2 p)) := by
  refine ⟨?_, rfl, ?_⟩
  · simp only [extractData, hplan, attemptProviders, h1, h2]
  · intro oracle2 F p ps d2 errs hok
    exact attemptProviders_ok_head oracle2 F p ps d2 errs hok

/-- C1 witness: both providers configured, OpenAI failing and Anthropic
succeeding, at concrete inputs. -/
def cfgBoth : LLMConfig :=
  ⟨true, true, strOf "gpt-4.1-2025-04-14", strOf "claude-3-haiku-20240307"⟩

def gen0 : Nat → Str := fun n => 'u' :: natStr n

def now0 : Str := strOf "2025-01-01T00:00:00.000Z"

def oracleFb : Provider → Except Str Json := fun p =>
  match p with
  | .openai => .error (strOf "boom")
  | .anthropic => .ok (Json.obj [])

theorem C1_fallback_second_provider_witness :
    extractData cfgBoth gen0 now0 oracleFb (strOf "f.pdf") 10 5 ⟨none, none, none, none⟩
      = .ok (structureResponse gen0 now0 cfgBoth (Json.obj []) (strOf "f.pdf") 10 5 .anthropic) ∧
    (structureResponse gen0 now0 cfgBoth (Json.obj []) (strOf "f.pdf") 10 5
        .anthropic).metadata.processingMethod
      = providerLabel cfgBoth .anthropic :=
  let h := C1_fallback_second_provider cfgBoth gen0 now0 oracleFb (strOf "f.pdf") 10 5
    ⟨none, none, none, none⟩ .openai .anthropic (strOf "boom") (Json.obj [])
    (by decide) rfl rfl
  ⟨h.1, h.2.1⟩

/-- C2: `extractData` fails only if every planned provider attempt fails, in
which case it raises the single aggregate error joining every planned
provider's `provider: reason` entry with `" | "`; with `allowFallback=false`
and a failing first provider the error names only that provider; and a first
failure followed by a later success is never surfaced. -/
theorem C2_aggregate_error (cfg : LLMConfig) (gen : Nat → Str) (now : Str)
    (oracle : Provider → Except Str Json) (fn : Str) (fs pt : Nat)
    (opts : ExtractionOptions) :
    ((∀ p ∈ planProviders cfg opts.model (opts.allowFallback.getD true),
        ∃ e, oracle p = .error e) →
      extractData cfg gen now oracle fn fs pt opts
        = .error (aggPre ++ List.intercalate (strOf " | ")
            ((planProviders cfg opts.model (opts.allowFallback.getD true)).map
              (fun p => providerName p ++ strOf ": " ++ errOf oracle p))
            ++ strOf ")")) ∧
    (∀ r, extractData cfg gen now oracle fn fs pt opts = .error r →
      ∀ p ∈ planProviders cfg opts.model (opts.allowFallback.getD true),
        ∃ e, oracle p = .error e) ∧
    (∀ p1 p2 e d,
      planProviders cfg opts.model (opts.allowFallback.getD true) = [p1, p2] →
      oracle p1 = .error e → oracle p2 = .ok d →
      ∃ rep, extractData cfg gen now oracle fn fs pt opts = .ok rep) ∧
    (extractData cfgBoth gen0 now0 oracleFb (strOf "f.pdf") 10 5
        ⟨none, none, none, some false⟩
      = .error (strOf "Failed to extract data using AI (openai: boom)") ∧
      occursIn (strOf "anthropic")
        (strOf "Failed to extract data using AI (openai: boom)") = false) := by
  refine ⟨?_, ?_, ?_, by decide, by decide⟩
  · intro h
    have := attemptProviders_all_fail oracle
      (fun d p => structureResponse gen now cfg d fn fs pt p)
      (planProviders cfg opts.model (opts.allowFallback.getD true)) [] h
    simpa [extractData] using this
  · intro r hr
    have hr2 : attemptProviders oracle
        (fun d p => structureResponse gen now cfg d fn fs pt p)
        (planProviders cfg opts.model (opts.allowFallback.getD true)) [] = .error r := by
      simpa [extractData] using hr
    exact attemptProviders_isError oracle _ _ [] r hr2
  · intro p1 p2 e d hplan h1 h2
    refine ⟨structureResponse gen now cfg d fn fs pt p2, ?_⟩
    simp only [extractData, hplan, attemptProviders, h1, h2]

/-- C2 witness: the all-fail branch applied with both providers failing, at
concrete inputs. -/
def oracleAllFail : Provider → Except Str Json := fun p =>
  match p with
  | .openai => .error (strOf "quota")
  | .anthropic => .error (strOf "auth")

theorem C2_aggregate_error_witness :
    extractData cfgBoth gen0 now0 oracleAllFail (strOf "f.pdf") 10 5 ⟨none, none, none, none⟩
      = .error (aggPre ++ List.intercalate (strOf " | ")
          ((planProviders cfgBoth none true).map
            (fun p => providerName p ++ strOf ": " ++ errOf oracleAllFail p))
          ++ strOf ")") :=
  (C2_aggregate_error cfgBoth gen0 now0 oracleAllFail (strOf "f.pdf") 10 5
    ⟨none, none, none, none⟩).1 (fun p _ => by
      cases p with
      | openai => exact ⟨strOf "quota", rfl⟩
      | anthropic => exact ⟨strOf "auth", rfl⟩)


/-- Four goal records, exactly one completed (the claim instance). -/
def data4 : Json := Json.obj [(strOf "goals", Json.arr [
  Json.obj [(strOf "id", Json.str (strOf "g1")), (strOf "status", Json.str (strOf "completed"))],
  Json.obj [(strOf "id", Json.str (strOf "g2")), (strOf "status", Json.str (strOf "planned"))],
  Json.obj [(strOf "id", Json.str (strOf "g3")), (strOf "status", Json.str (strOf "in-progress"))],
  Json.obj [(strOf "id", Json.str (strOf "g4")), (strOf "status", Json.str (strOf "planned"))]])]

/-! ## Claim C6: completion rate -/

theorem find?_map_replace (ms : List (Str × Json)) (k : Str) (v : Json) (key : Str)
    (h : key ≠ k) :
    (ms.map (fun p => if p.1 == k then (k, v) else p)).find? (fun p => p.1 == key)
      = ms.find? (fun p => p.1 == key) := by
  have hknk : (k == key) = false := by
    simp only [beq_eq_false_iff_ne]
    exact fun hc => h hc.symm
  induction ms with
  | nil => rfl
  | cons q ms ih =>
    simp only [List.map_cons]
    by_cases hq : q.1 = k
    · have hqkey : (q.1 == key) = false := by
        simp only [beq_eq_false_iff_ne]
        rw [hq]
        exact fun hc => h hc.symm
      rw [if_pos (by simp [hq])]
      rw [List.find?_cons, List.find?_cons]
      simp only [hknk, hqkey]
      exact ih
    · rw [if_neg (by simp [hq])]
      rw [List.find?_cons, List.find?_cons]
      cases hqk : (q.1 == key) with
      | true => simp only [hqk]
      | false =>
        simp only [hqk]
        exact ih

theorem find?_append_single_ne (ms : List (Str × Json)) (k : Str) (v : Json) (key : Str)
    (h : key ≠ k) :
    (ms ++ [(k, v)]).find? (fun p => p.1 == key) = ms.find? (fun p => p.1 == key) := by
  have hknk : (k == key) = false := by
    simp only [beq_eq_false_iff_ne]
    exact fun hc => h hc.symm
  induction ms with
  | nil =>
    simp only [List.nil_append]
    rw [List.find?_cons]
    simp only [hknk]
  | cons q ms ih =>
    simp only [List.cons_append]
    rw [List.find?_cons, List.find?_cons]
    cases hqk : (q.1 == key) with
    | true => simp only [hqk]
    | false =>
      simp only [hqk]
      exact ih

theorem find?_insertMember_ne (ms : List (Str × Json)) (k : Str) (v : Json) (key : Str)
    (h : key ≠ k) :
    (insertMember ms k v).find? (fun p => p.1 == key)
      = ms.find? (fun p => p.1 == key) := by
  unfold insertMember
  split
  · exact find?_map_replace ms k v key h
  · exact find?_append_single_ne ms k v key h

theorem jsField_setField_ne (r : Json) (k : Str) (v : Json) (key : Str) (h : key ≠ k) :
    jsField (setField r k v) key = jsField r key := by
  cases r with
  | obj ms =>
    simp only [setField, jsField]
    rw [find?_insertMember_ne ms k v key h]
  | null => rfl
  | bool b => rfl
  | num m e => rfl
  | str s => rfl
  | arr xs => rfl

theorem backfillIds_length (gen : Nat → Str) :
    ∀ (k : Nat) (rs : List Json), (backfillIds gen k rs).1.length = rs.length := by
  intro k rs
  induction rs generalizing k with
  | nil => simp [backfillIds]
  | cons r rs ih =>
    simp only [backfillIds]
    split <;> simp [ih]

/-- Backfilling does not change how many records a field-insensitive
predicate selects (used with the `status === "completed"` filter, which the
`id` assignment cannot affect). -/
theorem backfillIds_filter (gen : Nat → Str) (P : Json → Bool)
    (hP : ∀ r n, P (setField r (strOf "id") (.str (gen n))) = P r) :
    ∀ (k : Nat) (rs : List Json),
      ((backfillIds gen k rs).1.filter P).length = (rs.filter P).length := by
  intro k rs
  induction rs generalizing k with
  | nil => simp [backfillIds]
  | cons r rs ih =>
    simp only [backfillIds]
    split
    · simp only [List.filter_cons]
      cases hPr : P r <;> simp [hPr, ih]
    · simp only [List.filter_cons, hP r k]
      cases hPr : P r <;> simp [hPr, ih]

/-- The status filter used by the completion rate. -/
def isCompleted (g : Json) : Bool :=
  decide (jsField g (strOf "status") = some (.str (strOf "completed")))

theorem completionRate_unfold (gen : Nat → Str) (now : Str) (cfg : LLMConfig)
    (data : Json) (fn : Str) (fs pt : Nat) (prov : Provider) :
    (structureResponse gen now cfg data fn fs pt prov).summary.completionRate =
      (let goals := (backfillIds gen 0 (collOf data (strOf "goals"))).1
       let completed := (goals.filter isCompleted).length
       jsRound (if 0 < goals.length
         then ((completed : ℚ) / (goals.length : ℚ)) * 100 else 0)) := rfl

theorem completionRate_spec (gen : Nat → Str) (now : Str) (cfg : LLMConfig)
    (data : Json) (fn : Str) (fs pt : Nat) (prov : Provider) :
    (structureResponse gen now cfg data fn fs pt prov).summary.completionRate
      = if (collOf data (strOf "goals")).length = 0 then 0
        else jsRound ((100 : ℚ)
          * (((collOf data (strOf "goals")).filter isCompleted).length : ℚ)
          / ((collOf data (strOf "goals")).length : ℚ)) := by
  rw [completionRate_unfold]
  have hlen := backfillIds_length gen 0 (collOf data (strOf "goals"))
  have hfil := backfillIds_filter gen isCompleted
    (fun r n => by
      unfold isCompleted
      rw [jsField_setField_ne r (strOf "id") (.str (gen n)) (strOf "status") (by decide)])
    0 (collOf data (strOf "goals"))
  simp only [hlen, hfil]
  by_cases h0 : (collOf data (strOf "goals")).length = 0
  · simp [h0, jsRound]
    norm_num
  · have hpos : 0 < (collOf data (strOf "goals")).length := Nat.pos_of_ne_zero h0
    rw [if_pos hpos, if_neg h0]
    congr 1
    rw [div_mul_eq_mul_div, mul_comm]

/-- C6 (amended): `summary.completionRate` equals `Math.round` of
`100 × completed / total` over the goal records (`0` when there are no goal
records) — the code rounds the exact rate to the nearest integer, which the
claim's exact equation omits; in particular four goal records with exactly
one completed give 25. -/
theorem C6_completion_rate (gen : Nat → Str) (now : Str) (cfg : LLMConfig)
    (data : Json) (fn : Str) (fs pt : Nat) (prov : Provider) :
    ((structureResponse gen now cfg data fn fs pt prov).summary.completionRate
      = if (collOf data (strOf "goals")).length = 0 then 0
        else jsRound ((100 : ℚ)
          * (((collOf data (strOf "goals")).filter isCompleted).length : ℚ)
          / ((collOf data (strOf "goals")).length : ℚ))) ∧
    (structureResponse gen0 now0 cfgBoth data4 (strOf "f.pdf") 1 1
        .openai).summary.completionRate = 25 := by
  refine ⟨completionRate_spec gen now cfg data fn fs pt prov, ?_⟩
  rw [completionRate_spec]
  have h1 : (collOf data4 (strOf "goals")).length = 4 := by decide
  have h2 : ((collOf data4 (strOf "goals")).filter isCompleted).length = 1 := by decide
  rw [h1, h2]
  norm_num [jsRound]


/-- Three goal records, exactly one completed: the exact rate 100/3 is not an
integer, so the rounded field cannot equal it. -/
def dataThird : Json := Json.obj [(strOf "goals", Json.arr [
  Json.obj [(strOf "id", Json.str (strOf "g1")), (strOf "status", Json.str (strOf "completed"))],
  Json.obj [(strOf "id", Json.str (strOf "g2")), (strOf "status", Json.str (strOf "planned"))],
  Json.obj [(strOf "id", Json.str (strOf "g3")), (strOf "status", Json.str (strOf "planned"))]])]

/-- C6 counterexample: with three goal records of which one is completed, the
code stores `Math.round(100/3) = 33`, which differs from the exact value
`100 × 1 / 3` the claim asserts. -/
theorem C6_counterexample :
    (structureResponse gen0 now0 cfgBoth dataThird (strOf "f.pdf") 1 1
        .openai).summary.completionRate = 33 ∧
    ((structureResponse gen0 now0 cfgBoth dataThird (strOf "f.pdf") 1 1
        .openai).summary.completionRate : ℚ)
      ≠ 100 * (((collOf dataThird (strOf "goals")).filter isCompleted).length : ℚ)
          / ((collOf dataThird (strOf "goals")).length : ℚ) := by
  have h := completionRate_spec gen0 now0 cfgBoth dataThird (strOf "f.pdf") 1 1 .openai
  have h1 : (collOf dataThird (strOf "goals")).length = 3 := by decide
  have h2 : ((collOf dataThird (strOf "goals")).filter isCompleted).length = 1 := by decide
  rw [h, h1, h2]
  constructor
  · norm_num [jsRound]
  · norm_num [jsRound]


/-! ## Claim C5: id backfill and uniqueness -/

def isObjB : Json → Bool
  | .obj _ => true
  | _ => false

theorem find?_map_replace_same (ms : List (Str × Json)) (k : Str) (v : Json)
    (hany : ms.any (fun p => p.1 == k) = true) :
    (ms.map (fun p => if p.1 == k then (k, v) else p)).find? (fun p => p.1 == k)
      = some (k, v) := by
  induction ms with
  | nil => simp at hany
  | cons q ms ih =>
    simp only [List.map_cons]
    by_cases hq : q.1 = k
    · rw [if_pos (by simp [hq]), List.find?_cons]
      simp
    · have hqf : (q.1 == k) = false := by simp [hq]
      rw [if_neg (by simp [hq]), List.find?_cons]
      simp only [hqf]
      apply ih
      simpa [List.any_cons, hqf] using hany

theorem find?_append_single_same (ms : List (Str × Json)) (k : Str) (v : Json)
    (hnone : ms.any (fun p => p.1 == k) = false) :
    (ms ++ [(k, v)]).find? (fun p => p.1 == k) = some (k, v) := by
  induction ms with
  | nil =>
    simp only [List.nil_append]
    rw [List.find?_cons]
    simp
  | cons q ms ih =>
    have hqf : (q.1 == k) = false := by
      by_contra hc
      simp only [List.any_cons, Bool.or_eq_false_iff] at hnone
      exact hc hnone.1
    simp only [List.cons_append]
    rw [List.find?_cons]
    simp only [hqf]
    apply ih
    simp only [List.any_cons, Bool.or_eq_false_iff] at hnone
    exact hnone.2

theorem find?_insertMember_same (ms : List (Str × Json)) (k : Str) (v : Json) :
    (insertMember ms k v).find? (fun p => p.1 == k) = some (k, v) := by
  unfold insertMember
  split
  · rename_i hany
    exact find?_map_replace_same ms k v hany
  · rename_i hany
    exact find?_append_single_same ms k v (Bool.eq_false_iff.mpr hany)

theorem jsField_setField_same (r : Json) (hobj : isObjB r = true) (k : Str) (v : Json) :
    jsField (setField r k v) k = some v := by
  cases r with
  | obj ms =>
    simp only [setField, jsField]
    rw [find?_insertMember_same ms k v]
    rfl
  | null => simp [isObjB] at hobj
  | bool b => simp [isObjB] at hobj
  | num m e => simp [isObjB] at hobj
  | str s => simp [isObjB] at hobj
  | arr xs => simp [isObjB] at hobj

/-- Truthy-id values supplied by the provider, in record order. -/
def providedIds (rs : List Json) : List Json :=
  rs.filterMap (fun r =>
    if truthyOpt (jsField r (strOf "id")) then jsField r (strOf "id") else none)

/-- A record's `id`, when truthy-present, is a string value (so JS truthiness
coincides with non-emptiness). -/
def idOkB (r : Json) : Bool :=
  match jsField r (strOf "id") with
  | some (.str _) => true
  | some v => !isTruthy v
  | none => true

/-- The backfill loop distributes over list concatenation with counter
threading, so the report-wide run is one run over the concatenation. -/
theorem backfillIds_append (gen : Nat → Str) :
    ∀ (k : Nat) (xs ys : List Json),
      backfillIds gen k (xs ++ ys)
        = ((backfillIds gen k xs).1 ++ (backfillIds gen (backfillIds gen k xs).2 ys).1,
           (backfillIds gen (backfillIds gen k xs).2 ys).2) := by
  intro k xs
  induction xs generalizing k with
  | nil => intro ys; simp [backfillIds]
  | cons r rs ih =>
    intro ys
    simp only [List.cons_append, backfillIds, List.append_eq]
    split
    · rw [ih k ys]
      simp
    · rw [ih (k + 1) ys]
      simp

/-- Per-record effect of the backfill: a record with a truthy `id` passes
through unchanged; one without receives exactly one fresh `id` assignment,
every other field untouched. -/
theorem backfillIds_forall2 (gen : Nat → Str) :
    ∀ (k : Nat) (rs : List Json),
      List.Forall₂ (fun rin rout =>
        (truthyOpt (jsField rin (strOf "id")) = true → rout = rin) ∧
        (truthyOpt (jsField rin (strOf "id")) = false →
          ∃ n, rout = setField rin (strOf "id") (.str (gen n))) ∧
        ∀ key, key ≠ strOf "id" → jsField rout key = jsField rin key)
        rs (backfillIds gen k rs).1 := by
  intro k rs
  induction rs generalizing k with
  | nil => simp [backfillIds]
  | cons r rs ih =>
    simp only [backfillIds]
    cases htr : truthyOpt (jsField r (strOf "id")) with
    | true =>
      rw [if_pos rfl]
      exact List.Forall₂.cons
        ⟨fun _ => rfl, fun hc => absurd htr (by simp [hc]), fun _ _ => rfl⟩ (ih k)
    | false =>
      rw [if_neg (by simp)]
      exact List.Forall₂.cons
        ⟨fun hc => absurd htr (by simp [hc]),
         fun _ => ⟨k, rfl⟩,
         fun key hk => jsField_setField_ne r (strOf "id") (.str (gen k)) key hk⟩
        (ih (k + 1))

/-- Ids after the backfill: every record carries a non-empty string id, all
ids are pairwise distinct, and each id is either a provided one or a fresh
`gen` value from the consumed counter range — provided the records are
objects, truthy provided ids are distinct strings, and the supply is
injective, non-empty, and disjoint from the provided ids. -/
theorem backfillIds_distinct (gen : Nat → Str)
    (hginj : ∀ m n, gen m = gen n → m = n)
    (hgne : ∀ n, gen n ≠ []) :
    ∀ (rs : List Json) (k : Nat),
      (∀ r ∈ rs, isObjB r = true) →
      (∀ r ∈ rs, idOkB r = true) →
      (providedIds rs).Pairwise (· ≠ ·) →
      (∀ n, Json.str (gen n) ∉ providedIds rs) →
      (∀ rout ∈ (backfillIds gen k rs).1, ∃ s : Str, s ≠ [] ∧
        jsField rout (strOf "id") = some (.str s)) ∧
      ((backfillIds gen k rs).1.map (fun r => jsField r (strOf "id"))).Pairwise (· ≠ ·) ∧
      (∀ x ∈ (backfillIds gen k rs).1.map (fun r => jsField r (strOf "id")),
        (∃ v ∈ providedIds rs, x = some v) ∨ ∃ n, k ≤ n ∧ x = some (.str (gen n))) := by
  intro rs
  induction rs with
  | nil => intro k _ _ _ _; simp [backfillIds]
  | cons r rs ih =>
    intro k hobj hidok hdist hfresh
    have hobjr : isObjB r = true := hobj r (by simp)
    have hobjs : ∀ q ∈ rs, isObjB q = true := fun q hq => hobj q (by simp [hq])
    have hidoks : ∀ q ∈ rs, idOkB q = true := fun q hq => hidok q (by simp [hq])
    cases htr : truthyOpt (jsField r (strOf "id")) with
    | true =>
      obtain ⟨v, hv⟩ : ∃ v, jsField r (strOf "id") = some v := by
        cases hj : jsField r (strOf "id") with
        | some v => exact ⟨v, rfl⟩
        | none => rw [hj] at htr; simp [truthyOpt] at htr
      obtain ⟨s, hs⟩ : ∃ s, v = Json.str s := by
        have hio := hidok r (by simp)
        unfold idOkB at hio
        rw [hv] at hio
        rw [hv] at htr
        simp only [truthyOpt] at htr
        cases v with
        | str s => exact ⟨s, rfl⟩
        | null => simp [isTruthy] at htr
        | bool b =>
          simp only [isTruthy] at htr
          simp [isTruthy, htr] at hio
        | num m e =>
          simp only [isTruthy] at htr
          simp [isTruthy, htr] at hio
        | arr xs => simp [isTruthy] at hio
        | obj ms => simp [isTruthy] at hio
      have hsne : s ≠ [] := by
        rw [hv, hs] at htr
        simp only [truthyOpt, isTruthy] at htr
        intro hc
        rw [hc] at htr
        simp at htr
      have htr2 : truthyOpt (some v) = true := by rw [← hv]; exact htr
      have hprov : providedIds (r :: rs) = v :: providedIds rs := by
        simp [providedIds, List.filterMap_cons, hv, htr2]
      rw [hprov] at hdist hfresh
      have hdist2 : (providedIds rs).Pairwise (· ≠ ·) := (List.pairwise_cons.mp hdist).2
      have hvne : ∀ w ∈ providedIds rs, v ≠ w := (List.pairwise_cons.mp hdist).1
      have hfresh2 : ∀ n, Json.str (gen n) ∉ providedIds rs := by
        intro n hn
        exact hfresh n (by simp [hn])
      obtain ⟨ha, hb, hc⟩ := ih k hobjs hidoks hdist2 hfresh2
      simp only [backfillIds, if_pos htr]
      refine ⟨?_, ?_, ?_⟩
      · intro rout hrout
        rcases List.mem_cons.mp hrout with rfl | hmem
        · exact ⟨s, hsne, by rw [hv, hs]⟩
        · exact ha rout hmem
      · rw [List.map_cons]
        rw [List.pairwise_cons]
        refine ⟨?_, hb⟩
        intro x hx
        rcases hc x hx with ⟨w, hw, rfl⟩ | ⟨n, _, rfl⟩
        · rw [hv]
          intro hcon
          exact hvne w hw (Option.some.inj hcon)
        · rw [hv]
          intro hcon
          apply hfresh n
          rw [← Option.some.inj hcon]
          simp
      · intro x hx
        rw [hprov]
        rw [List.map_cons] at hx
        rcases List.mem_cons.mp hx with rfl | hmem
        · left
          exact ⟨v, by simp, hv⟩
        · rcases hc x hmem with ⟨w, hw, rfl⟩ | ⟨n, hn, rfl⟩
          · left
            exact ⟨w, by simp [hw], rfl⟩
          · right
            exact ⟨n, hn, rfl⟩
    | false =>
      have hprov : providedIds (r :: rs) = providedIds rs := by
        simp [providedIds, List.filterMap_cons, htr]
      rw [hprov] at hdist hfresh
      obtain ⟨ha, hb, hc⟩ := ih (k + 1) hobjs hidoks hdist hfresh
      have hset : jsField (setField r (strOf "id") (.str (gen k))) (strOf "id")
          = some (.str (gen k)) := jsField_setField_same r hobjr (strOf "id") (.str (gen k))
      simp only [backfillIds, if_neg (by simp [htr] : ¬ truthyOpt (jsField r (strOf "id")) = true)]
      refine ⟨?_, ?_, ?_⟩
      · intro rout hrout
        rcases List.mem_cons.mp hrout with rfl | hmem
        · exact ⟨gen k, hgne k, hset⟩
        · exact ha rout hmem
      · rw [List.map_cons]
        rw [List.pairwise_cons]
        refine ⟨?_, hb⟩
        intro x hx
        rw [hset]
        rcases hc x hx with ⟨w, hw, rfl⟩ | ⟨n, hn, rfl⟩
        · intro hcon
          apply hfresh k
          rw [Option.some.inj hcon]
          simpa using hw
        · intro hcon
          have := hginj k n (by
            have h2 := Option.some.inj hcon
            exact congrArg (fun j => match j with | Json.str t => t | _ => []) h2)
          omega
      · intro x hx
        rw [hprov]
        rw [List.map_cons] at hx
        rcases List.mem_cons.mp hx with rfl | hmem
        · right
          exact ⟨k, Nat.le_refl k, hset⟩
        · rcases hc x hmem with ⟨w, hw, rfl⟩ | ⟨n, hn, rfl⟩
          · left
            exact ⟨w, hw, rfl⟩
          · right
            exact ⟨n, by omega, rfl⟩

/-- The concatenation of the six category collections of a report. -/
def allRecords (rep : ExtractedReport) : List Json :=
  rep.goals ++ rep.bmps ++ rep.implementation ++ rep.monitoring ++ rep.outreach
    ++ rep.geographicAreas

/-- The concatenation of the six raw collections of a provider response, in
backfill order. -/
def rsAll (data : Json) : List Json :=
  collOf data (strOf "goals") ++ collOf data (strOf "bmps")
    ++ collOf data (strOf "implementation") ++ collOf data (strOf "monitoring")
    ++ collOf data (strOf "outreach") ++ collOf data (strOf "geographicAreas")

/-- The six finalized collections are one backfill run over the concatenated
raw collections (counter threading matches concatenation). -/
theorem structureResponse_allRecords (gen : Nat → Str) (now : Str) (cfg : LLMConfig)
    (data : Json) (fn : Str) (fs pt : Nat) (prov : Provider) :
    allRecords (structureResponse gen now cfg data fn fs pt prov)
      = (backfillIds gen 0 (rsAll data)).1 := by
  simp only [rsAll, backfillIds_append]
  rfl

/-- C5 (amended): after Finalize, a record arriving without a truthy `id`
receives a freshly generated identifier and backfilling alters no other
field; every record then carries a non-empty string `id`, and the ids are
unique within the report provided the provider-supplied truthy ids are
themselves pairwise-distinct strings and the uuid supply is injective,
non-empty and disjoint from them (the code does not deduplicate
provider-supplied ids). -/
theorem C5_id_backfill (gen : Nat → Str) (now : Str) (cfg : LLMConfig)
    (data : Json) (fn : Str) (fs pt : Nat) (prov : Provider)
    (hginj : ∀ m n, gen m = gen n → m = n) (hgne : ∀ n, gen n ≠ [])
    (hobj : ∀ r ∈ rsAll data, isObjB r = true)
    (hidok : ∀ r ∈ rsAll data, idOkB r = true)
    (hdist : (providedIds (rsAll data)).Pairwise (· ≠ ·))
    (hfresh : ∀ n, Json.str (gen n) ∉ providedIds (rsAll data)) :
    (∀ r ∈ allRecords (structureResponse gen now cfg data fn fs pt prov),
      ∃ s : Str, s ≠ [] ∧ jsField r (strOf "id") = some (.str s)) ∧
    ((allRecords (structureResponse gen now cfg data fn fs pt prov)).map
        (fun r => jsField r (strOf "id"))).Pairwise (· ≠ ·) ∧
    List.Forall₂ (fun rin rout =>
        (truthyOpt (jsField rin (strOf "id")) = true → rout = rin) ∧
        (truthyOpt (jsField rin (strOf "id")) = false →
          ∃ n, rout = setField rin (strOf "id") (.str (gen n))) ∧
        ∀ key, key ≠ strOf "id" → jsField rout key = jsField rin key)
      (rsAll data)
      (allRecords (structureResponse gen now cfg data fn fs pt prov)) := by
  rw [structureResponse_allRecords]
  obtain ⟨ha, hb, _⟩ := backfillIds_distinct gen hginj hgne (rsAll data) 0 hobj hidok hdist hfresh
  exact ⟨ha, hb, backfillIds_forall2 gen 0 (rsAll data)⟩

/-- Two goal records arriving with the same provider-supplied id `"x"`: the
finalized report keeps both as-is, so the ids are not unique — refuting the
claim's unconditional uniqueness. -/
def dataDup : Json := Json.obj [(strOf "goals", Json.arr [
  Json.obj [(strOf "id", Json.str (strOf "x"))],
  Json.obj [(strOf "id", Json.str (strOf "x"))]])]

/-- C5 counterexample: duplicate provider-supplied ids survive Finalize
verbatim, so `id` uniqueness fails on this concrete report. -/
theorem C5_counterexample :
    ((allRecords (structureResponse gen0 now0 cfgBoth dataDup (strOf "f.pdf") 1 1
        .openai)).map (fun r => jsField r (strOf "id")))
      = [some (Json.str (strOf "x")), some (Json.str (strOf "x"))] ∧
    ¬ ((allRecords (structureResponse gen0 now0 cfgBoth dataDup (strOf "f.pdf") 1 1
        .openai)).map (fun r => jsField r (strOf "id"))).Pairwise (· ≠ ·) := by
  constructor
  · decide
  · decide

/-- Injective, never-empty uuid-supply stand-in for the witness. -/
def genU : Nat → Str := fun n => List.replicate (n + 1) 'u'

/-- One goal record missing its `id` and one bmp with id `"b1"` (the claim's
backfill instance). -/
def dataMissing : Json := Json.obj [
  (strOf "goals", Json.arr [Json.obj [(strOf "title", Json.str (strOf "t"))]]),
  (strOf "bmps", Json.arr [Json.obj [(strOf "id", Json.str (strOf "b1"))]])]

/-- C5 witness: the amended theorem applied at a concrete response with one
goal record missing its id, with all hypotheses discharged concretely. -/
theorem C5_id_backfill_witness :
    (∀ r ∈ allRecords (structureResponse genU now0 cfgBoth dataMissing (strOf "f.pdf") 1 1
        .openai), ∃ s : Str, s ≠ [] ∧ jsField r (strOf "id") = some (.str s)) ∧
    ((allRecords (structureResponse genU now0 cfgBoth dataMissing (strOf "f.pdf") 1 1
        .openai)).map (fun r => jsField r (strOf "id"))).Pairwise (· ≠ ·) := by
  have hginj : ∀ m n, genU m = genU n → m = n := by
    intro m n h
    have h2 := congrArg List.length h
    simp [genU] at h2
    exact h2
  have hgne : ∀ n, genU n ≠ [] := by
    intro n
    simp [genU]
  have hfresh : ∀ n, Json.str (genU n) ∉ providedIds (rsAll dataMissing) := by
    intro n hn
    have hpi : providedIds (rsAll dataMissing) = [Json.str (strOf "b1")] := by decide
    rw [hpi] at hn
    simp only [List.mem_singleton, Json.str.injEq] at hn
    have h2 : (genU n).head? = some 'b' := by rw [hn]; rfl
    simp [genU, List.replicate_succ] at h2
  have hobj : ∀ r ∈ rsAll dataMissing, isObjB r = true := by
    have h2 : (rsAll dataMissing).all isObjB = true := by decide
    exact fun r hr => List.all_eq_true.mp h2 r hr
  have hidok : ∀ r ∈ rsAll dataMissing, idOkB r = true := by
    have h2 : (rsAll dataMissing).all idOkB = true := by decide
    exact fun r hr => List.all_eq_true.mp h2 r hr
  have h := C5_id_backfill genU now0 cfgBoth dataMissing (strOf "f.pdf") 1 1 .openai
    hginj hgne hobj hidok (by decide) hfresh
  exact ⟨h.1, h.2.1⟩


/-! ## Claim C9: prompt truncation -/

theorem isPrefixOf_append_self : ∀ (n b : Str), n.isPrefixOf (n ++ b) = true
  | [], b => by simp [List.isPrefixOf]
  | x :: xs, b => by
      simp only [List.cons_append, List.isPrefixOf, beq_self_eq_true, Bool.true_and]
      exact isPrefixOf_append_self xs b

theorem occursIn_of_isPrefixOf : ∀ (n l : Str), n.isPrefixOf l = true → occursIn n l = true
  | n, [], h => by
      cases n with
      | nil => rfl
      | cons x xs => simp [List.isPrefixOf] at h
  | n, c :: t, h => by
      simp [occursIn, h]

theorem occursIn_append_right : ∀ (n a b : Str), occursIn n b = true → occursIn n (a ++ b) = true
  | n, [], b, h => by simpa using h
  | n, a0 :: as, b, h => by
      simp only [List.cons_append, occursIn, Bool.or_eq_true]
      right
      exact occursIn_append_right n as b h

theorem occursIn_cons_of (n : Str) (c : Char) (t : Str) (h : occursIn n t = true) :
    occursIn n (c :: t) = true := by
  simp [occursIn, h]

theorem isPrefixOf_append_sep (c : Char) : ∀ (n a b : Str), c ∉ n →
    n.isPrefixOf (a ++ c :: b) = n.isPrefixOf a
  | [], a, b, _ => by simp [List.isPrefixOf]
  | x :: xs, [], b, hc => by
      simp only [List.nil_append, List.isPrefixOf]
      have hxc : (x == c) = false := by
        simp only [beq_eq_false_iff_ne]
        intro hx
        exact hc (by rw [← hx]; exact List.mem_cons_self x xs)
      simp [hxc]
  | x :: xs, a0 :: as, b, hc => by
      simp only [List.cons_append, List.isPrefixOf, List.append_eq]
      rw [isPrefixOf_append_sep c xs as b (fun hm => hc (List.mem_cons_of_mem x hm))]

theorem occursIn_append_sep (c : Char) : ∀ (n a b : Str), c ∉ n → n ≠ [] →
    occursIn n (a ++ c :: b) = (occursIn n a || occursIn n b)
  | n, [], b, hc, hn => by
      obtain ⟨n0, nr, rfl⟩ : ∃ n0 nr, n = n0 :: nr := by
        cases n with
        | nil => exact absurd rfl hn
        | cons n0 nr => exact ⟨n0, nr, rfl⟩
      simp only [List.nil_append, occursIn]
      have hpf : (n0 :: nr).isPrefixOf (c :: b) = false := by
        have h2 := isPrefixOf_append_sep c (n0 :: nr) [] b hc
        simpa [List.isPrefixOf] using h2
      simp [hpf]
  | n, a0 :: as, b, hc, hn => by
      simp only [List.cons_append, occursIn, List.append_eq]
      rw [occursIn_append_sep c n as b hc hn]
      rw [show a0 :: (as ++ c :: b) = (a0 :: as) ++ c :: b from rfl,
        isPrefixOf_append_sep c n (a0 :: as) b hc]
      cases n.isPrefixOf (a0 :: as) <;> simp

theorem digitChar_isDigit (n : Nat) (h : n < 10) : isDigitCh (Nat.digitChar n) = true := by
  interval_cases n <;> decide

theorem toDigitsCore_digits : ∀ (fuel n : Nat) (ds : List Char),
    (∀ c ∈ ds, isDigitCh c = true) → ∀ c ∈ Nat.toDigitsCore 10 fuel n ds, isDigitCh c = true := by
  intro fuel
  induction fuel with
  | zero => intro n ds hds c hc; exact hds c (by simpa [Nat.toDigitsCore] using hc)
  | succ f ih =>
    intro n ds hds c hc
    have hdigit : isDigitCh (Nat.digitChar (n % 10)) = true :=
      digitChar_isDigit (n % 10) (Nat.mod_lt n (by norm_num))
    simp only [Nat.toDigitsCore] at hc
    split at hc
    · rcases List.mem_cons.mp hc with rfl | hm
      · exact hdigit
      · exact hds c hm
    · refine ih (n / 10) (Nat.digitChar (n % 10) :: ds) ?_ c hc
      intro c2 hc2
      rcases List.mem_cons.mp hc2 with rfl | hm
      · exact hdigit
      · exact hds c2 hm

theorem natStr_digits (n : Nat) : ∀ c ∈ natStr n, isDigitCh c = true := by
  intro c hc
  have h2 : natStr n = Nat.toDigitsCore 10 (n + 1) n [] := rfl
  rw [h2] at hc
  exact toDigitsCore_digits (n + 1) n [] (by simp) c hc

theorem occursIn_false_of_head_notMem (n0 : Char) (nr : Str) : ∀ (xs : Str),
    (∀ c ∈ xs, (n0 == c) = false) → occursIn (n0 :: nr) xs = false
  | [], _ => by simp [occursIn]
  | a :: t, h => by
      have ha := h a (by simp)
      simp only [occursIn, List.isPrefixOf, ha, Bool.false_and, Bool.false_or]
      exact occursIn_false_of_head_notMem n0 nr t (fun c hc => h c (by simp [hc]))

theorem marker_not_in_natStr (k : Nat) : occursIn truncMarker (natStr k) = false := by
  have hm : truncMarker = '.' :: strOf "..[truncated]" := rfl
  rw [hm]
  apply occursIn_false_of_head_notMem
  intro c hc
  have hd := natStr_digits k c hc
  by_contra hb
  rw [Bool.not_eq_false] at hb
  rw [← eq_of_beq hb] at hd
  exact absurd hd (by decide)

theorem marker_not_space : ' ' ∉ truncMarker := by decide

theorem marker_not_newline : '\n' ∉ truncMarker := by decide

theorem marker_ne_nil : truncMarker ≠ [] := by decide

theorem strOf_append (a b : String) : strOf (a ++ b) = strOf a ++ strOf b := rfl

theorem strOf_newline : strOf "\n" = ['\n'] := rfl

theorem promptBody_split :
    strOf promptBodyS = strOf promptChunk0 ++ '\n' :: (strOf promptChunk1 ++ '\n' :: (strOf promptChunk2 ++ '\n' :: (strOf promptChunk3 ++ '\n' :: (strOf promptChunk4 ++ '\n' :: (strOf promptChunk5 ++ '\n' :: (strOf promptChunk6 ++ '\n' :: (strOf promptChunk7 ++ '\n' :: (strOf promptChunk8)))))))) := by
  simp only [promptBodyS, strOf_append, strOf_newline, List.singleton_append,
    List.cons_append, List.nil_append, List.append_assoc]

theorem marker_not_in_chunk0 : occursIn truncMarker (strOf promptChunk0) = false := by
  decide

theorem marker_not_in_chunk1 : occursIn truncMarker (strOf promptChunk1) = false := by
  decide

theorem marker_not_in_chunk2 : occursIn truncMarker (strOf promptChunk2) = false := by
  decide

theorem marker_not_in_chunk3 : occursIn truncMarker (strOf promptChunk3) = false := by
  decide

theorem marker_not_in_chunk4 : occursIn truncMarker (strOf promptChunk4) = false := by
  decide

theorem marker_not_in_chunk5 : occursIn truncMarker (strOf promptChunk5) = false := by
  decide

theorem marker_not_in_chunk6 : occursIn truncMarker (strOf promptChunk6) = false := by
  decide

theorem marker_not_in_chunk7 : occursIn truncMarker (strOf promptChunk7) = false := by
  decide

theorem marker_not_in_chunk8 : occursIn truncMarker (strOf promptChunk8) = false := by
  decide

theorem marker_not_in_promptBody : occursIn truncMarker (strOf promptBodyS) = false := by
  rw [promptBody_split]
  rw [occursIn_append_sep '\n' truncMarker (strOf promptChunk0) _ marker_not_newline marker_ne_nil]
  rw [occursIn_append_sep '\n' truncMarker (strOf promptChunk1) _ marker_not_newline marker_ne_nil]
  rw [occursIn_append_sep '\n' truncMarker (strOf promptChunk2) _ marker_not_newline marker_ne_nil]
  rw [occursIn_append_sep '\n' truncMarker (strOf promptChunk3) _ marker_not_newline marker_ne_nil]
  rw [occursIn_append_sep '\n' truncMarker (strOf promptChunk4) _ marker_not_newline marker_ne_nil]
  rw [occursIn_append_sep '\n' truncMarker (strOf promptChunk5) _ marker_not_newline marker_ne_nil]
  rw [occursIn_append_sep '\n' truncMarker (strOf promptChunk6) _ marker_not_newline marker_ne_nil]
  rw [occursIn_append_sep '\n' truncMarker (strOf promptChunk7) _ marker_not_newline marker_ne_nil]
  simp [marker_not_in_chunk0, marker_not_in_chunk1, marker_not_in_chunk2, marker_not_in_chunk3, marker_not_in_chunk4, marker_not_in_chunk5, marker_not_in_chunk6, marker_not_in_chunk7, marker_not_in_chunk8]

theorem marker_not_in_bannerA : occursIn truncMarker (strOf bannerAS) = false := by
  decide

theorem marker_not_in_bannerTail : occursIn truncMarker (strOf bannerTailS) = false := by
  decide

/-- The document-side tail of the prompt holds no marker when the text's
embedded prefix holds none and no marker was appended. -/
theorem marker_not_in_doc_tail (T : Str) (hT : occursIn truncMarker T = false) :
    occursIn truncMarker (strOf promptBodyS ++ '\n' :: (T ++ ' ' :: ([] ++ ['\n']))) = false := by
  rw [occursIn_append_sep '\n' truncMarker (strOf promptBodyS) _ marker_not_newline marker_ne_nil]
  rw [occursIn_append_sep ' ' truncMarker T _ marker_not_space marker_ne_nil]
  rw [marker_not_in_promptBody, hT]
  decide

/-- C9 counterexample: a 14-character document text that is the literal
`...[truncated]` marker — the prompt contains the marker although the text is
not longer than 16,000, so the claim's "if and only if" fails as stated. -/
theorem C9_counterexample :
    occursIn truncMarker (buildExtractionPrompt truncMarker none) = true ∧
    ¬ 16000 < truncMarker.length := by
  constructor
  · have htake : truncMarker.take 16000 = truncMarker := by decide
    simp only [buildExtractionPrompt, pageAnalysisOf, List.nil_append]
    rw [if_neg (by decide), htake]
    apply occursIn_append_right
    apply occursIn_cons_of
    apply occursIn_of_isPrefixOf
    exact isPrefixOf_append_self truncMarker _
  · decide

/-- C9 (amended): the prompt embeds at most the first 16,000 characters of
the document text (prompts agree whenever the 16,000-prefixes and the
over-16,000 flags agree); the `...[truncated]` marker occurs in the prompt
whenever the text is longer than 16,000; and — provided the marker does not
itself occur in the embedded 16,000-character prefix — the marker does not
occur in the prompt of a text of at most 16,000 characters. -/
theorem C9_prompt_truncation (text : Str) (pts : Option (List Str)) :
    (∀ t2 : Str, text.take 16000 = t2.take 16000 →
      (16000 < text.length ↔ 16000 < t2.length) →
      buildExtractionPrompt text pts = buildExtractionPrompt t2 pts) ∧
    (16000 < text.length →
      occursIn truncMarker (buildExtractionPrompt text pts) = true) ∧
    (text.length ≤ 16000 → occursIn truncMarker (text.take 16000) = false →
      occursIn truncMarker (buildExtractionPrompt text pts) = false) := by
  refine ⟨?_, ?_, ?_⟩
  · intro t2 h1 h2
    have h3 : (16000 < text.length) = (16000 < t2.length) := propext h2
    simp only [buildExtractionPrompt, h1, h3]
  · intro h
    simp only [buildExtractionPrompt]
    rw [if_pos h]
    apply occursIn_append_right truncMarker (pageAnalysisOf pts ++ strOf promptBodyS)
    apply occursIn_cons_of
    apply occursIn_append_right truncMarker (text.take 16000)
    apply occursIn_cons_of
    exact occursIn_of_isPrefixOf truncMarker (truncMarker ++ ['\n'])
      (isPrefixOf_append_self truncMarker ['\n'])
  · intro hle hT
    simp only [buildExtractionPrompt]
    rw [if_neg (by omega : ¬ 16000 < text.length)]
    cases pts with
    | none =>
      simp only [pageAnalysisOf, List.nil_append]
      exact marker_not_in_doc_tail (text.take 16000) hT
    | some l =>
      by_cases hl : 0 < l.length
      · simp only [pageAnalysisOf, if_pos hl, List.append_assoc, List.cons_append,
          List.nil_append, List.singleton_append]
        rw [occursIn_append_sep ' ' truncMarker (strOf bannerAS) _
          marker_not_space marker_ne_nil]
        rw [occursIn_append_sep ' ' truncMarker (natStr l.length) _
          marker_not_space marker_ne_nil]
        rw [occursIn_append_sep '\n' truncMarker (strOf bannerTailS) _
          marker_not_newline marker_ne_nil]
        rw [marker_not_in_bannerA, marker_not_in_natStr, marker_not_in_bannerTail]
        have h4 := marker_not_in_doc_tail (text.take 16000) hT
        simp only [List.nil_append] at h4
        rw [occursIn_append_sep '\n' truncMarker (strOf promptBodyS) _
          marker_not_newline marker_ne_nil] at h4 ⊢
        rw [occursIn_append_sep ' ' truncMarker (text.take 16000) _
          marker_not_space marker_ne_nil] at h4 ⊢
        simpa using h4
      · simp only [pageAnalysisOf, if_neg hl, List.nil_append]
        exact marker_not_in_doc_tail (text.take 16000) hT

/-- C9 witness: the over-16,000 branch applied at a concrete long text
(16,001 copies of `a`), and the within-budget branch at a short text. -/
theorem C9_prompt_truncation_witness :
    occursIn truncMarker
      (buildExtractionPrompt (List.replicate 16001 'a') none) = true ∧
    occursIn truncMarker (buildExtractionPrompt (strOf "hello") none) = false :=
  ⟨(C9_prompt_truncation (List.replicate 16001 'a') none).2.1
      (by rw [List.length_replicate]; omega),
   (C9_prompt_truncation (strOf "hello") none).2.2 (by decide) (by decide)⟩

/-! ## Claim C3: fallback page splitting -/

theorem ws_cases (c : Char) (h : isWsChar c = true) :
    c = ' ' ∨ c = '\t' ∨ c = '\n' ∨ c = '\r' ∨ c = '\x0b' ∨ c = '\x0c' := by
  simp only [isWsChar, Bool.or_eq_true, beq_iff_eq] at h
  tauto

theorem ws_not_word (c : Char) (h : isWsChar c = true) : isWordChar c = false := by
  rcases ws_cases c h with rfl | rfl | rfl | rfl | rfl | rfl <;> decide

theorem lowerCh_ws_not_wn (c : Char) (h : isWsChar c = true) :
    (lowerCh c == 'w') = false ∧ (lowerCh c == 'n') = false := by
  rcases ws_cases c h with rfl | rfl | rfl | rfl | rfl | rfl <;> exact ⟨by decide, by decide⟩

theorem mem_of_mem_dropWhile (p : Char → Bool) :
    ∀ (l : Str) (a : Char), a ∈ l.dropWhile p → a ∈ l
  | [], _, h => h
  | c :: t, a, h => by
      simp only [List.dropWhile] at h
      split at h
      · exact List.mem_cons_of_mem c (mem_of_mem_dropWhile p t a h)
      · exact h

theorem dropWhile_all_false (p : Char → Bool) (l : Str)
    (h : ∀ c ∈ l, p c = false) : l.dropWhile p = l := by
  cases l with
  | nil => rfl
  | cons a t =>
      have ha := h a (List.mem_cons_self a t)
      simp [List.dropWhile, ha]

/-- `trim` is the identity on strings without whitespace characters. -/
theorem jsTrim_id (s : Str) (h : ∀ c ∈ s, isWsChar c = false) : jsTrim s = s := by
  unfold jsTrim
  rw [dropWhile_all_false isWsChar s h]
  rw [dropWhile_all_false isWsChar s.reverse (fun c hc => h c (List.mem_reverse.mp hc))]
  exact List.reverse_reverse s

theorem jsTrim_nil_of_allWs (s : Str) (h : ∀ c ∈ s, isWsChar c = true) : jsTrim s = [] := by
  unfold jsTrim
  rw [List.dropWhile_eq_nil_iff.mpr h]
  rfl

theorem allWs_of_jsTrim_nil (s : Str) (h : jsTrim s = []) : ∀ c ∈ s, isWsChar c = true := by
  unfold jsTrim at h
  rw [List.reverse_eq_nil_iff] at h
  have h2 := List.dropWhile_eq_nil_iff.mp h
  intro c hc
  have hsplit : s.takeWhile isWsChar ++ s.dropWhile isWsChar = s := by
    simp [List.takeWhile_append_dropWhile]
  rw [← hsplit] at hc
  rcases List.mem_append.mp hc with hm | hm
  · exact List.mem_takeWhile_imp hm
  · exact h2 c (List.mem_reverse.mpr hm)

theorem fixHyphensGo_id :
    ∀ (fuel : Nat) (s : Str), s.length < fuel → (∀ c ∈ s, isWordChar c = false) →
      fixHyphensGo fuel s = s
  | 0, _, hf, _ => absurd hf (by omega)
  | _ + 1, [], _, _ => rfl
  | fuel + 1, c :: cs, hf, h => by
      have hc := h c (List.mem_cons_self c cs)
      have hr := fixHyphensGo_id fuel cs (by simp only [List.length_cons] at hf; omega)
        (fun d hd => h d (List.mem_cons_of_mem c hd))
      simp [fixHyphensGo, hc, hr]

theorem fixCompoundGo_id (w1 w2 repl : Str)
    (hw : ∀ (c : Char) (cs : Str), isWsChar c = true → stripCI w1 (c :: cs) = none) :
    ∀ (fuel : Nat) (s : Str), s.length < fuel → (∀ c ∈ s, isWsChar c = true) →
      fixCompoundGo w1 w2 repl fuel s = s
  | 0, _, hf, _ => absurd hf (by omega)
  | _ + 1, [], _, _ => rfl
  | fuel + 1, c :: cs, hf, h => by
      have hs := hw c cs (h c (List.mem_cons_self c cs))
      have hr := fixCompoundGo_id w1 w2 repl hw fuel cs
        (by simp only [List.length_cons] at hf; omega)
        (fun d hd => h d (List.mem_cons_of_mem c hd))
      simp [fixCompoundGo, hs, hr]

theorem capNewlinesGo_allWs :
    ∀ (fuel : Nat) (s : Str), (∀ c ∈ s, isWsChar c = true) →
      ∀ d ∈ capNewlinesGo fuel s, isWsChar d = true
  | 0, _, _ => by intro d hd; simp [capNewlinesGo] at hd
  | _ + 1, [], _ => by intro d hd; simp [capNewlinesGo] at hd
  | fuel + 1, c :: cs, h => by
      intro d hd
      simp only [capNewlinesGo] at hd
      split at hd
      · rcases List.mem_append.mp hd with hm | hm
        · have hdn : d = '\n' := by
            split at hm
            · have e3 : strOf "\n\n\n" = ['\n', '\n', '\n'] := rfl
              rw [e3] at hm
              simp at hm
              exact hm
            · exact List.eq_of_mem_replicate hm
          rw [hdn]
          decide
        · exact capNewlinesGo_allWs fuel (cs.dropWhile (fun x => x == '\n'))
            (fun e he => h e (List.mem_cons_of_mem c
              (mem_of_mem_dropWhile (fun x => x == '\n') cs e he))) d hm
      · rcases List.mem_cons.mp hd with rfl | hm
        · exact h d (List.mem_cons_self d cs)
        · exact capNewlinesGo_allWs fuel cs (fun e he => h e (List.mem_cons_of_mem c he)) d hm

theorem collapseSpacesGo_allWs :
    ∀ (fuel : Nat) (s : Str), (∀ c ∈ s, isWsChar c = true) →
      ∀ d ∈ collapseSpacesGo fuel s, isWsChar d = true
  | 0, _, _ => by intro d hd; simp [collapseSpacesGo] at hd
  | _ + 1, [], _ => by intro d hd; simp [collapseSpacesGo] at hd
  | fuel + 1, c :: cs, h => by
      intro d hd
      simp only [collapseSpacesGo] at hd
      split at hd
      · rcases List.mem_cons.mp hd with rfl | hm
        · decide
        · exact collapseSpacesGo_allWs fuel
            (cs.dropWhile (fun x => x == ' ' || x == '\t'))
            (fun e he => h e (List.mem_cons_of_mem c
              (mem_of_mem_dropWhile (fun x => x == ' ' || x == '\t') cs e he))) d hm
      · rcases List.mem_cons.mp hd with rfl | hm
        · exact h d (List.mem_cons_self d cs)
        · exact collapseSpacesGo_allWs fuel cs (fun e he => h e (List.mem_cons_of_mem c he)) d hm

theorem stripCI_water_ws (c : Char) (cs : Str) (h : isWsChar c = true) :
    stripCI (strOf "water") (c :: cs) = none := by
  have h2 := (lowerCh_ws_not_wn c h).1
  show stripCI ('w' :: strOf "ater") (c :: cs) = none
  simp [stripCI, h2]

theorem stripCI_non_ws (c : Char) (cs : Str) (h : isWsChar c = true) :
    stripCI (strOf "non") (c :: cs) = none := by
  have h2 := (lowerCh_ws_not_wn c h).2
  show stripCI ('n' :: strOf "on") (c :: cs) = none
  simp [stripCI, h2]

/-- A raw text whose trim is empty cleans to the empty string: hyphen and
compound repairs fix all-whitespace input, run capping and space collapsing
preserve all-whitespace-ness, and the final trim empties it. -/
theorem cleanText_nil_of_trim_nil (raw : Str) (h : jsTrim raw = []) : cleanText raw = [] := by
  have hws := allWs_of_jsTrim_nil raw h
  unfold cleanText fixHyphens fixCompound capNewlines collapseSpaces
  rw [fixHyphensGo_id (raw.length + 1) raw (Nat.lt_succ_self _)
    (fun c hc => ws_not_word c (hws c hc))]
  rw [fixCompoundGo_id (strOf "water") (strOf "shed") (strOf "watershed")
    stripCI_water_ws (raw.length + 1) raw (Nat.lt_succ_self _) hws]
  rw [fixCompoundGo_id (strOf "non") (strOf "point") (strOf "nonpoint")
    stripCI_non_ws (raw.length + 1) raw (Nat.lt_succ_self _) hws]
  exact jsTrim_nil_of_allWs _
    (collapseSpacesGo_allWs _ _ (capNewlinesGo_allWs _ _ hws))

theorem no_ws_no_newline {t : Str} (h : ∀ ch ∈ t, isWsChar ch = false) :
    ∀ ch ∈ t, ch ≠ '\n' := fun ch hc he => by
  have h2 := h ch hc
  rw [he] at h2
  exact absurd h2 (by decide)

theorem splitNl_single : ∀ (t : Str), (∀ ch ∈ t, ch ≠ '\n') → splitNl t = [t]
  | [], _ => rfl
  | a :: s, h => by
      have ha : (a == '\n') = false := by
        rw [beq_eq_false_iff_ne]
        exact h a (List.mem_cons_self a s)
      have hr := splitNl_single s (fun ch hc => h ch (List.mem_cons_of_mem a hc))
      simp [splitNl, ha, hr]

theorem capNewlinesGo_id :
    ∀ (fuel : Nat) (s : Str), s.length < fuel → (∀ ch ∈ s, ch ≠ '\n') →
      capNewlinesGo fuel s = s
  | 0, _, hf, _ => absurd hf (by omega)
  | _ + 1, [], _, _ => rfl
  | fuel + 1, c :: cs, hf, h => by
      have hc : (c == '\n') = false := by
        rw [beq_eq_false_iff_ne]
        exact h c (List.mem_cons_self c cs)
      have hr := capNewlinesGo_id fuel cs (by simp only [List.length_cons] at hf; omega)
        (fun d hd => h d (List.mem_cons_of_mem c hd))
      simp [capNewlinesGo, hc, hr]

/-- Per-page cleaning is the identity on whitespace-free segments: such a
segment is a single line (fewer than five), so header/footer stripping passes
it through, and capping and trimming change nothing. -/
theorem cleanPageText_id (t : Str) (h : ∀ ch ∈ t, isWsChar ch = false) (pn : Nat) :
    cleanPageText t pn = t := by
  have hnl := no_ws_no_newline h
  simp only [cleanPageText, removeHeadersFooters, capNewlines]
  rw [splitNl_single t hnl]
  simp only [List.length_singleton]
  rw [if_pos (by omega)]
  rw [capNewlinesGo_id (t.length + 1) t (Nat.lt_succ_self _) hnl]
  exact jsTrim_id t h

theorem prefix_false_of_head_ne (n0 : Char) (nr : Str) :
    ∀ (l : Str), (∀ ch ∈ l, ch ≠ n0) → (n0 :: nr).isPrefixOf l = false
  | [], _ => rfl
  | a :: t, h => by
      have ha : (n0 == a) = false := by
        rw [beq_eq_false_iff_ne]
        exact fun hc => h a (List.mem_cons_self a t) hc.symm
      simp [List.isPrefixOf, ha]

theorem idxScan_none (n0 : Char) (nr : Str) :
    ∀ (l : Str) (i : Nat), (∀ ch ∈ l, ch ≠ n0) → idxScan (n0 :: nr) l i = -1
  | [], i, _ => by simp [idxScan]
  | a :: t, i, h => by
      have hp := prefix_false_of_head_ne n0 nr (a :: t) h
      simp only [idxScan]
      simp only [hp, Bool.false_eq_true, if_false]
      exact idxScan_none n0 nr t (i + 1) (fun ch hc => h ch (List.mem_cons_of_mem a hc))

theorem lastIdxAux_none (c : Str) (n0 : Char) (nr : Str) (hc : ∀ ch ∈ c, ch ≠ n0) :
    ∀ k : Nat, lastIdxAux c (n0 :: nr) k = -1
  | 0 => by
      have hp := prefix_false_of_head_ne n0 nr c hc
      simp [lastIdxAux, hp]
  | k + 1 => by
      have hp := prefix_false_of_head_ne n0 nr (c.drop (k + 1))
        (fun ch hch => hc ch (List.drop_subset (k + 1) c hch))
      simp only [lastIdxAux]
      simp only [hp, Bool.false_eq_true, if_false]
      exact lastIdxAux_none c n0 nr hc k

/-- Without any newline in the cleaned text every boundary search misses, so
the boundary nudge keeps the estimated boundary. -/
theorem nudgeBoundary_id (c : Str) (avg : Nat) (e : Int)
    (h : ∀ ch ∈ c, ch ≠ '\n') : nudgeBoundary c avg e = e := by
  have h1 : jsIndexOf c (strOf "\n\n") e = -1 := by
    unfold jsIndexOf
    exact idxScan_none '\n' ['\n'] _ _
      (fun ch hch => h ch (List.drop_subset _ c hch))
  have h2 : jsLastIndexOf c (strOf "\n\n") e = -1 := by
    unfold jsLastIndexOf
    exact lastIdxAux_none c '\n' ['\n'] h _
  have h3 : jsIndexOf c (strOf "\n") e = -1 := by
    unfold jsIndexOf
    exact idxScan_none '\n' [] _ _
      (fun ch hch => h ch (List.drop_subset _ c hch))
  have h4 : jsLastIndexOf c (strOf "\n") e = -1 := by
    unfold jsLastIndexOf
    exact lastIdxAux_none c '\n' [] h _
  simp only [nudgeBoundary, h1, h2, h3, h4]
  simp

theorem jsSubstring_eval (c : Str) (a b : Nat) (hab : a ≤ b) (hb : b ≤ c.length) :
    jsSubstring c (a : Int) (b : Int) = (c.drop a).take (b - a) := by
  have ha2 : ((a : Int)).toNat = a := rfl
  have hb2 : ((b : Int)).toNat = b := rfl
  simp only [jsSubstring, ha2, hb2]
  have h1 : min a c.length = a := by omega
  have h2 : min b c.length = b := by omega
  rw [h1, h2]
  have h3 : min a b = a := by omega
  have h4 : max a b = b := by omega
  rw [h3, h4]

theorem isEmpty_false_of_ne_nil {l : Str} (h : l ≠ []) : l.isEmpty = false := by
  cases l with
  | nil => exact absurd rfl h
  | cons a t => rfl

theorem flatten_cons_eq (a : Str) (l : List Str) :
    List.flatten (a :: l) = a ++ List.flatten l := rfl

theorem pageLoop_zero (c : Str) (avg i : Nat) (start : Int) :
    pageLoop c avg 0 i start = [] := rfl

theorem pageLoop_succ_eq (c : Str) (avg rem i : Nat) (start e : Int)
    (he : (if 1 ≤ rem then nudgeBoundary c avg (start + (avg : Int))
           else (c.length : Int)) = e) :
    pageLoop c avg (rem + 1) i start =
      (if (jsTrim (jsSubstring c start e)).isEmpty then []
       else [cleanPageText (jsTrim (jsSubstring c start e)) (i + 1)]) ++
        pageLoop c avg rem (i + 1) e := by
  subst he
  rfl

/-- The page loop on a whitespace-free text with exact page arithmetic: with
`rem` pages to go from offset `start` and `start + rem * avg` the text length,
it yields exactly `rem` non-empty chunks concatenating to the text's tail. -/
theorem pageLoop_spec (c : Str) (avg : Nat) (havg : 1 ≤ avg)
    (hnws : ∀ ch ∈ c, isWsChar ch = false) :
    ∀ (rem i start : Nat), start + rem * avg = c.length → 1 ≤ rem →
      (pageLoop c avg rem i (start : Int)).length = rem ∧
      (∀ s ∈ pageLoop c avg rem i (start : Int), s ≠ []) ∧
      List.flatten (pageLoop c avg rem i (start : Int)) = c.drop start
  | 0, _, _, _, hrem => absurd hrem (by omega)
  | 1, i, start, harith, _ => by
      have hstart : start ≤ c.length := by omega
      have h0 : pageLoop c avg 1 i (start : Int) =
          (if (jsTrim (jsSubstring c (start : Int) (c.length : Int))).isEmpty then []
           else [cleanPageText (jsTrim (jsSubstring c (start : Int) (c.length : Int)))
             (i + 1)]) ++
            pageLoop c avg 0 (i + 1) (c.length : Int) :=
        pageLoop_succ_eq c avg 0 i (start : Int) (c.length : Int)
          (by rw [if_neg (by decide)])
      have hsub : jsSubstring c (start : Int) (c.length : Int)
          = (c.drop start).take (c.length - start) :=
        jsSubstring_eval c start c.length hstart (Nat.le_refl _)
      have hdl : (c.drop start).length = c.length - start := List.length_drop start c
      have htk : (c.drop start).take (c.length - start) = c.drop start := by
        rw [← hdl]
        exact List.take_length (c.drop start)
      have hne : c.drop start ≠ [] := by
        intro hcon
        have hlen0 := congrArg List.length hcon
        rw [hdl] at hlen0
        simp only [List.length_nil] at hlen0
        omega
      have hnws2 : ∀ ch ∈ c.drop start, isWsChar ch = false :=
        fun ch hc => hnws ch (List.drop_subset start c hc)
      have htr : jsTrim (jsSubstring c (start : Int) (c.length : Int)) = c.drop start := by
        rw [hsub, htk]
        exact jsTrim_id _ hnws2
      rw [h0, htr]
      rw [if_neg (by simp [isEmpty_false_of_ne_nil hne])]
      rw [cleanPageText_id (c.drop start) hnws2 (i + 1), pageLoop_zero]
      refine ⟨by simp, ?_, by simp [List.flatten]⟩
      intro s hs
      rw [List.append_nil] at hs
      rcases List.mem_singleton.mp hs with rfl
      exact hne
  | rem + 2, i, start, harith, _ => by
      have hexp : (rem + 2) * avg = avg + (rem + 1) * avg := by ring
      have hse : start + avg ≤ c.length := by omega
      have h0 : pageLoop c avg (rem + 2) i (start : Int) =
          (if (jsTrim (jsSubstring c (start : Int) ((start + avg : Nat) : Int))).isEmpty
            then []
           else [cleanPageText
             (jsTrim (jsSubstring c (start : Int) ((start + avg : Nat) : Int))) (i + 1)]) ++
            pageLoop c avg (rem + 1) (i + 1) ((start + avg : Nat) : Int) :=
        pageLoop_succ_eq c avg (rem + 1) i (start : Int) ((start + avg : Nat) : Int) (by
          rw [if_pos (Nat.le_add_left 1 rem)]
          rw [nudgeBoundary_id c avg ((start : Int) + (avg : Int)) (no_ws_no_newline hnws)]
          rw [Nat.cast_add])
      have hsub : jsSubstring c (start : Int) ((start + avg : Nat) : Int)
          = (c.drop start).take (start + avg - start) :=
        jsSubstring_eval c start (start + avg) (Nat.le_add_right start avg) hse
      have hav : start + avg - start = avg := by omega
      rw [hav] at hsub
      have hnws2 : ∀ ch ∈ (c.drop start).take avg, isWsChar ch = false :=
        fun ch hc => hnws ch (List.drop_subset start c (List.take_subset avg (c.drop start) hc))
      have hlen : ((c.drop start).take avg).length = avg := by
        rw [List.length_take, List.length_drop]
        omega
      have hne : (c.drop start).take avg ≠ [] := by
        intro hcon
        have h5 := congrArg List.length hcon
        rw [hlen] at h5
        simp only [List.length_nil] at h5
        omega
      have htr : jsTrim (jsSubstring c (start : Int) ((start + avg : Nat) : Int))
          = (c.drop start).take avg := by
        rw [hsub]
        exact jsTrim_id _ hnws2
      have harith2 : (start + avg) + (rem + 1) * avg = c.length := by omega
      obtain ⟨ihl, ihn, ihj⟩ := pageLoop_spec c avg havg hnws (rem + 1) (i + 1) (start + avg)
        harith2 (Nat.le_add_left 1 rem)
      rw [h0, htr]
      rw [if_neg (by simp [isEmpty_false_of_ne_nil hne])]
      rw [cleanPageText_id ((c.drop start).take avg) hnws2 (i + 1)]
      refine ⟨?_, ?_, ?_⟩
      · rw [List.length_append, ihl, List.length_singleton]
        omega
      · intro s hs
        rcases List.mem_append.mp hs with hm | hm
        · rcases List.mem_singleton.mp hm with rfl
          exact hne
        · exact ihn s hm
      · rw [List.singleton_append, flatten_cons_eq, ihj]
        have hdd : c.drop (start + avg) = (c.drop start).drop avg := by
          rw [List.drop_drop]
        rw [hdd, List.take_append_drop]

/-- A raw text of five bare-number lines declared as one page. -/
def rawFive : Str := strOf "1\n2\n3\n4\n5"

/-- C3 counterexample: for the raw text `1\n2\n3\n4\n5` declared as one page,
the cleaned length (9) is an exact multiple of the page count (1) and the
cleaned text is non-empty, yet the splitter returns a single empty segment:
per-page cleaning strips all five lines as bare-number header/footer lines.
The claimed non-emptiness fails, and so does the whitespace-insensitive
reconstruction of the cleaned input. -/
theorem C3_counterexample :
    (cleanText rawFive).length % 1 = 0 ∧
    cleanText rawFive ≠ [] ∧
    fallbackPageExtraction rawFive 1 = [[]] ∧
    (fallbackPageExtraction rawFive 1).all (fun s => !s.isEmpty) = false ∧
    stripWs (List.flatten (fallbackPageExtraction rawFive 1)) ≠ stripWs (cleanText rawFive) :=
  ⟨by decide, by decide, by decide, by decide, by decide⟩

/-- C3 (amended): for any raw text and declared page count at least one such
that the cleaned text is non-empty and free of whitespace characters (so
header/footer stripping and whitespace-trimming cannot interfere) and the
cleaned length is an exact multiple of the page count, `fallbackPageExtraction`
produces exactly `numPages` non-empty segments whose concatenation is exactly
the cleaned text; in general per-page cleaning and the skipping of
whitespace-only segments can empty or drop segments. -/
theorem C3_page_split (raw : Str) (numPages : Nat) (h1 : 1 ≤ numPages)
    (h2 : cleanText raw ≠ [])
    (h3 : ∀ ch ∈ cleanText raw, isWsChar ch = false)
    (h4 : (cleanText raw).length % numPages = 0) :
    (fallbackPageExtraction raw numPages).length = numPages ∧
    (∀ s ∈ fallbackPageExtraction raw numPages, s ≠ []) ∧
    List.flatten (fallbackPageExtraction raw numPages) = cleanText raw := by
  have hguard : (jsTrim raw).isEmpty = false := by
    cases htr : jsTrim raw with
    | nil => exact absurd (cleanText_nil_of_trim_nil raw htr) h2
    | cons a t => rfl
  simp only [fallbackPageExtraction]
  rw [if_neg (by simp [hguard])]
  rcases Nat.lt_or_ge numPages 2 with hlt | hge
  · have hnp : numPages = 1 := by omega
    subst hnp
    rw [if_pos (by omega)]
    rw [cleanPageText_id (cleanText raw) h3 1]
    refine ⟨rfl, ?_, by simp [List.flatten]⟩
    intro s hs
    rcases List.mem_singleton.mp hs with rfl
    exact h2
  · rw [if_neg (by omega)]
    have hdvd : numPages ∣ (cleanText raw).length := Nat.dvd_of_mod_eq_zero h4
    have hlen : (cleanText raw).length = numPages * ((cleanText raw).length / numPages) :=
      (Nat.mul_div_cancel' hdvd).symm
    have havg : 1 ≤ (cleanText raw).length / numPages := by
      rcases Nat.eq_zero_or_pos ((cleanText raw).length / numPages) with h0 | hpos
      · rw [h0, Nat.mul_zero] at hlen
        exact absurd (List.length_eq_zero.mp hlen) h2
      · exact hpos
    have hc0 : (0 : Int) = ((0 : Nat) : Int) := by simp
    rw [hc0]
    obtain ⟨hl, hn, hj⟩ := pageLoop_spec (cleanText raw)
      ((cleanText raw).length / numPages) havg h3 numPages 0 0 (by omega) (by omega)
    exact ⟨hl, hn, by rw [hj, List.drop_zero]⟩

/-- C3 witness: the whitespace-free six-character text `abcdef` declared as
two pages splits into exactly two non-empty segments concatenating to the
cleaned text. -/
theorem C3_page_split_witness :
    (fallbackPageExtraction (strOf "abcdef") 2).length = 2 ∧
    (∀ s ∈ fallbackPageExtraction (strOf "abcdef") 2, s ≠ []) ∧
    List.flatten (fallbackPageExtraction (strOf "abcdef") 2) = cleanText (strOf "abcdef") :=
  C3_page_split (strOf "abcdef") 2 (by decide) (by decide) (by decide) (by decide)


end PDFP
